import Mathlib

/-!
URL shortener: registry, shortcode generation and click recording.

A shallow embedding of `src/url-shortener/src/context/UrlContext.jsx` and of the
log recorder in `src/url-shortener/src/LoggingMiddleware.js`.

Modelling conventions.

* Instants (`Date` values and their ISO-8601 renderings) are integers counting
  milliseconds since the epoch.  `toISOString` followed by `new Date(iso)` is the
  identity on such values; the limit of the representable `Date` range and
  IEEE-754 rounding are outside the model.
* JavaScript strings are Lean strings; `===` on strings is equality.
* `customShortcode` is `null` or a string: `Option String`.  A JavaScript
  condition on it is true exactly for a non-empty string (`truthy`).
* The React reducer state a callback closes over (`state.shortenedUrls` as seen
  by `addShortenedUrl` and `recordClick`) is an explicit argument `snapshot`;
  `dispatch` acts on the reducer state held in the `World`.
* `Math.random`, the clock, `document.referrer`, the geolocation reply and the
  behaviour of `localStorage.setItem` are inputs of each call.
* The `do ... while` loop of `generateShortcode` has no bound in the source; the
  model takes a number of rounds (`fuel`) and returns `none` when it is used up.
-/

namespace UrlShortener

/-! ## Data model -/

/-- The `location` object of a click: `{country, city, region}`. -/
structure Location where
  country : String
  city : String
  region : String
deriving DecidableEq, Repr

/-- A click event, as built in `recordClick`. -/
structure ClickEvent where
  timestamp : Int
  source : String
  location : Location
deriving DecidableEq, Repr

/-- A shortened-URL record, the object literal `newUrl` of `addShortenedUrl`. -/
structure UrlRecord where
  id : String
  originalUrl : String
  shortcode : String
  shortUrl : String
  createdAt : Int
  expiresAt : Int
  validityMinutes : Int
  clicks : List ClickEvent
  isCustom : Bool
deriving DecidableEq, Repr

/-- The reducer state (`initialState` gives its shape). -/
structure State where
  shortenedUrls : List UrlRecord
  loading : Bool
  error : Option String
deriving DecidableEq, Repr

/-- The value `initialState`. -/
def initialState : State :=
  { shortenedUrls := [], loading := false, error := none }

/-- Reducer actions: the six `ACTIONS` and any other action type. -/
inductive Action where
  | ADD_URL (payload : UrlRecord)
  | UPDATE_CLICKS (shortcode : String) (clickData : ClickEvent)
  | SET_LOADING (payload : Bool)
  | SET_ERROR (payload : String)
  | LOAD_URLS (payload : List UrlRecord)
  | CLEAR_ERROR
  | other
deriving DecidableEq, Repr

/-- The function `urlReducer`. -/
def urlReducer (state : State) : Action → State
  | .ADD_URL payload =>
      { state with shortenedUrls := state.shortenedUrls ++ [payload], error := none }
  | .UPDATE_CLICKS shortcode clickData =>
      { state with
        shortenedUrls := state.shortenedUrls.map (fun url =>
          if url.shortcode = shortcode
            then { url with clicks := url.clicks ++ [clickData] }
            else url) }
  | .SET_LOADING payload => { state with loading := payload }
  | .SET_ERROR payload => { state with error := some payload, loading := false }
  | .LOAD_URLS payload => { state with shortenedUrls := payload, error := none }
  | .CLEAR_ERROR => { state with error := none }
  | .other => state

/-! ## The log recorder (`LoggingMiddleware.js`) -/

/-- The four `LEVELS`. -/
inductive Level where
  | INFO | WARN | ERROR | DEBUG
deriving DecidableEq, Repr

/-- The `data` argument of the log calls made by the registry. -/
inductive LogData where
  | null
  | error (message : String)
  | created (shortcode originalUrl : String) (validityMinutes : Int) (isCustom : Bool)
  | click (shortcode : String) (clickData : ClickEvent)
  | count (n : Nat)
deriving DecidableEq, Repr

/-- One `logEntry`. -/
structure LogEntry where
  timestamp : Int
  level : Level
  message : String
  data : LogData
  userAgent : String
  url : String
deriving DecidableEq, Repr

/-- The field `maxLogs` set by the constructor. -/
def maxLogs : Nat := 1000

/-- The expression `xs.slice(-n)` for `n > 0`: the last `n` elements. -/
def sliceLast {α : Type} (n : Nat) (xs : List α) : List α :=
  xs.drop (xs.length - n)

/-- What one key of `localStorage` holds: nothing, a text that `JSON.parse`
rejects, or the JSON text of a value.  `holds value` stands for a text that
`JSON.parse` maps to `value`; for a collection of records, whose fields are strings,
integers, booleans and arrays, `JSON.stringify` yields such a text. -/
inductive Slot (α : Type) where
  | absent
  | malformed (text : String)
  | holds (value : α)
deriving DecidableEq, Repr

/-! ## The world a call runs in -/

/-- Reducer state, the two `localStorage` keys and the log list, with two
observation fields: the actions dispatched so far and the number of
`setItem('shortenedUrls', ...)` attempts. -/
structure World where
  state : State
  urlStore : Slot (List UrlRecord)
  logs : List LogEntry
  logStore : Slot (List LogEntry)
  dispatched : List Action
  urlWrites : Nat
deriving DecidableEq, Repr

/-- What the platform answers during one call. -/
structure Platform where
  /-- The constructor `new URL(url)` returns instead of throwing. -/
  urlParses : String → Bool
  /-- The value `window.location.origin`. -/
  origin : String
  /-- The value `window.location.href`. -/
  href : String
  /-- The value `navigator.userAgent`. -/
  userAgent : String
  /-- The clock reading used for log timestamps. -/
  logClock : Int
  /-- Whether `localStorage.setItem('shortenedUrls', ...)` returns normally. -/
  urlsWritable : Bool
  /-- Whether `localStorage.setItem('urlShortenerLogs', ...)` returns normally. -/
  logsWritable : Bool

/-- The call `dispatch(action)`. -/
def dispatch (w : World) (a : Action) : World :=
  { w with state := urlReducer w.state a, dispatched := w.dispatched ++ [a] }

/-- The method `persistLogs`. -/
def persistLogs (P : Platform) (w : World) : World :=
  if P.logsWritable then { w with logStore := .holds w.logs } else w

/-- The method `log(level, message, data)`. -/
def log (P : Platform) (w : World) (level : Level) (message : String) (data : LogData) : World :=
  let logEntry : LogEntry :=
    { timestamp := P.logClock, level := level, message := message, data := data,
      userAgent := P.userAgent, url := P.href }
  let pushed := w.logs ++ [logEntry]
  let kept := if pushed.length > maxLogs then sliceLast maxLogs pushed else pushed
  persistLogs P { w with logs := kept }

/-- The function `saveUrlsToStorage`. -/
def saveUrlsToStorage (P : Platform) (w : World) (urls : List UrlRecord) : World :=
  let w1 := { w with urlWrites := w.urlWrites + 1 }
  if P.urlsWritable then { w1 with urlStore := .holds urls }
  else log P w1 .ERROR "Failed to save URLs to localStorage" (.error "setItem failed")

/-! ## Validation -/

/-- The character class `[a-zA-Z0-9]`. -/
def isAlnum (c : Char) : Bool :=
  (decide ('a' ≤ c) && decide (c ≤ 'z')) || (decide ('A' ≤ c) && decide (c ≤ 'Z'))
    || (decide ('0' ≤ c) && decide (c ≤ '9'))

/-- A backtracking matcher for `C{lo,hi}` followed by the rest of the pattern `k`:
one more character of the class is tried first, then stopping here. -/
def matchRepeat (cls : Char → Bool) (k : List Char → Bool) : Nat → Nat → List Char → Bool
  | lo, 0, cs => lo == 0 && k cs
  | lo, _ + 1, [] => lo == 0 && k []
  | lo, hi + 1, c :: cs =>
      (cls c && matchRepeat cls k (lo - 1) hi cs) || (lo == 0 && k (c :: cs))

/-- The assertion `$` without the `m` flag: only the end of the input. -/
def atEnd (cs : List Char) : Bool := cs.isEmpty

/-- The function `validateShortcode`: the test of `/^[a-zA-Z0-9]{3,10}$/`. -/
def validateShortcode (shortcode : String) : Bool :=
  matchRepeat isAlnum atEnd 3 10 shortcode.toList

/-- The function `validateUrl`. -/
def validateUrl (P : Platform) (url : String) : Bool := P.urlParses url

/-- A JavaScript condition on a value that is `null` or a string. -/
def truthy : Option String → Bool
  | some s => s != ""
  | none => false

/-! ## Shortcode generation -/

/-- The constant `chars` of `generateShortcode`. -/
def chars : String := "ABCDEFGHIJKLMNOPQRSTUVWXYZabcdefghijklmnopqrstuvwxyz0123456789"

/-- The method `s.charAt(i)`: the empty string when `i` is out of range. -/
def charAt (s : String) (i : Nat) : String :=
  match s.toList.get? i with
  | some c => String.singleton c
  | none => ""

/-- The inner `for` loop: `n` more characters appended to `shortcode`, each
`chars.charAt(Math.floor(Math.random() * chars.length))`; `rand` lists the
successive values of that floor and `pos` counts the draws made so far. -/
def drawChars (rand : Nat → Fin 62) : Nat → Nat → String → String
  | 0, _, shortcode => shortcode
  | n + 1, pos, shortcode => drawChars rand n (pos + 1) (shortcode ++ charAt chars (rand pos).val)

/-- The function `generateShortcode`, run for at most `fuel` rounds of its
`do ... while` loop. -/
def generateShortcode (snapshot : List UrlRecord) (rand : Nat → Fin 62) : Nat → Nat → Option String
  | 0, _ => none
  | fuel + 1, pos =>
      let shortcode := drawChars rand 6 pos ""
      if snapshot.any (fun url => url.shortcode == shortcode)
        then generateShortcode snapshot rand fuel (pos + 6)
        else some shortcode

/-! ## Creating a record -/

/-- The inputs one call of `addShortenedUrl` reads from its surroundings. -/
structure AddInput where
  /-- The instant `new Date()` of line 145. -/
  now : Int
  /-- The value `Date.now()` of line 149. -/
  idNow : Int
  /-- The successive values `Math.floor(Math.random() * chars.length)`. -/
  rand : Nat → Fin 62
  /-- The number of rounds granted to the loop of `generateShortcode`. -/
  fuel : Nat

/-- The three messages thrown by `addShortenedUrl`. -/
def msgInvalidUrl : String := "Invalid URL format"

def msgInvalidShortcode : String :=
  "Invalid shortcode format. Use 3-10 alphanumeric characters."

def msgShortcodeExists : String :=
  "Shortcode already exists. Please choose a different one."

/-- The object literal `newUrl`. -/
def mkNewUrl (P : Platform) (inp : AddInput) (originalUrl : String) (validityMinutes : Int)
    (customShortcode : Option String) (shortcode : String) : UrlRecord :=
  { id := toString inp.idNow
    originalUrl := originalUrl
    shortcode := shortcode
    shortUrl := P.origin ++ "/" ++ shortcode
    createdAt := inp.now
    expiresAt := inp.now + validityMinutes * 60000
    validityMinutes := validityMinutes
    clicks := []
    isCustom := truthy customShortcode }

/-- The `try` block of `addShortenedUrl`, from the state reached after the first
`dispatch`.  The result is `none` when `generateShortcode` uses up its rounds. -/
def addShortenedUrlTry (P : Platform) (inp : AddInput) (snapshot : List UrlRecord) (w : World)
    (originalUrl : String) (validityMinutes : Int) (customShortcode : Option String) :
    Option (World × Except String UrlRecord) :=
  if !validateUrl P originalUrl then
    some (w, .error msgInvalidUrl)
  else if truthy customShortcode && !validateShortcode (customShortcode.getD "") then
    some (w, .error msgInvalidShortcode)
  else if truthy customShortcode
      && snapshot.any (fun url => url.shortcode == customShortcode.getD "") then
    some (w, .error msgShortcodeExists)
  else
    match (if truthy customShortcode then some (customShortcode.getD "")
           else generateShortcode snapshot inp.rand inp.fuel 0) with
    | none => none
    | some shortcode =>
        let newUrl := mkNewUrl P inp originalUrl validityMinutes customShortcode shortcode
        let w1 := dispatch w (.ADD_URL newUrl)
        let updatedUrls := snapshot ++ [newUrl]
        let w2 := saveUrlsToStorage P w1 updatedUrls
        let w3 := log P w2 .INFO "New shortened URL created"
          (.created shortcode originalUrl validityMinutes (truthy customShortcode))
        some (w3, .ok newUrl)

/-- The function `addShortenedUrl(originalUrl, validityMinutes = 30, customShortcode = null)`.
An omitted `validityMinutes` is `none`.  `snapshot` is the `state.shortenedUrls`
the closure was created with. -/
def addShortenedUrl (P : Platform) (inp : AddInput) (snapshot : List UrlRecord) (w : World)
    (originalUrl : String) (validityMinutes : Option Int) (customShortcode : Option String) :
    Option (World × Except String UrlRecord) :=
  let w0 := dispatch w (.SET_LOADING true)
  match addShortenedUrlTry P inp snapshot w0 originalUrl (validityMinutes.getD 30)
      customShortcode with
  | none => none
  | some (w1, .ok newUrl) => some (dispatch w1 (.SET_LOADING false), .ok newUrl)
  | some (w1, .error message) =>
      let w2 := log P w1 .ERROR "Failed to create shortened URL" (.error message)
      let w3 := dispatch w2 (.SET_ERROR message)
      some (dispatch w3 (.SET_LOADING false), .error message)

/-! ## Recording a click -/

/-- The JSON reply of the geolocation service, each field present or not. -/
structure GeoReply where
  country_name : Option String
  city : Option String
  region : Option String

/-- The inputs one call of `recordClick` reads from its surroundings. -/
structure ClickInput where
  /-- The instant `new Date()` of the expiry test. -/
  now : Int
  /-- The instant `new Date()` of the click timestamp. -/
  clickClock : Int
  /-- The value `document.referrer`. -/
  referrer : String
  /-- The reply of the geolocation service, `none` when the request or its
  decoding fails. -/
  geo : Option GeoReply

/-- The expression `x || 'Unknown'`. -/
def orUnknown (x : Option String) : String :=
  if truthy x then x.getD "" else "Unknown"

/-- The function `getLocationData`. -/
def getLocationData (P : Platform) (w : World) : Option GeoReply → World × Location
  | some data =>
      (w, { country := orUnknown data.country_name, city := orUnknown data.city,
            region := orUnknown data.region })
  | none =>
      (log P w .WARN "Failed to get location data" (.error "fetch failed"),
       { country := "Unknown", city := "Unknown", region := "Unknown" })

def msgNotFound : String := "URL not found"

def msgExpired : String := "URL has expired"

/-- The `try` block of `recordClick`. -/
def recordClickTry (P : Platform) (inp : ClickInput) (snapshot : List UrlRecord) (w : World)
    (shortcode : String) : World × Except String String :=
  match snapshot.find? (fun u => u.shortcode == shortcode) with
  | none => (w, .error msgNotFound)
  | some url =>
      if inp.now > url.expiresAt then (w, .error msgExpired)
      else
        let located := getLocationData P w inp.geo
        let clickData : ClickEvent :=
          { timestamp := inp.clickClock
            source := if inp.referrer != "" then inp.referrer else "Direct"
            location := located.2 }
        let w1 := dispatch located.1 (.UPDATE_CLICKS shortcode clickData)
        let updatedUrls := snapshot.map (fun u =>
          if u.shortcode = shortcode then { u with clicks := u.clicks ++ [clickData] } else u)
        let w2 := saveUrlsToStorage P w1 updatedUrls
        let w3 := log P w2 .INFO "Click recorded" (.click shortcode clickData)
        (w3, .ok url.originalUrl)

/-- The function `recordClick`. -/
def recordClick (P : Platform) (inp : ClickInput) (snapshot : List UrlRecord) (w : World)
    (shortcode : String) : World × Except String String :=
  match recordClickTry P inp snapshot w shortcode with
  | (w1, .ok originalUrl) => (w1, .ok originalUrl)
  | (w1, .error message) =>
      (log P w1 .ERROR "Failed to record click" (.error message), .error message)

/-! ## Derived notions used by the statements -/

/-- The shortcodes of a collection, in order. -/
def codes (urls : List UrlRecord) : List String := urls.map (fun u => u.shortcode)

/-- A call of `addShortenedUrl` made by a closure that sees the current registry. -/
def addFresh (P : Platform) (inp : AddInput) (w : World) (originalUrl : String)
    (validityMinutes : Option Int) (customShortcode : Option String) :
    Option (World × Except String UrlRecord) :=
  addShortenedUrl P inp w.state.shortenedUrls w originalUrl validityMinutes customShortcode

/-- A call of `recordClick` made by a closure that sees the current registry. -/
def clickFresh (P : Platform) (inp : ClickInput) (w : World) (shortcode : String) :
    World × Except String String :=
  recordClick P inp w.state.shortenedUrls w shortcode

/-- One request to `addShortenedUrl` together with what its surroundings answer. -/
structure AddCall where
  platform : Platform
  input : AddInput
  originalUrl : String
  validityMinutes : Option Int
  customShortcode : Option String

/-- A sequence of `addShortenedUrl` calls, each made on the registry left by the
previous one; `none` when some call does not return. -/
def runAdds : World → List AddCall → Option World
  | w, [] => some w
  | w, c :: cs =>
      match addFresh c.platform c.input w c.originalUrl c.validityMinutes c.customShortcode with
      | none => none
      | some (w1, _) => runAdds w1 cs

/-- The world at start-up: `initialState`, nothing stored, nothing logged. -/
def emptyWorld : World :=
  { state := initialState, urlStore := .absent, logs := [], logStore := .absent,
    dispatched := [], urlWrites := 0 }

/-- The world reached by the successful branch of the `try` block. -/
def afterCreate (P : Platform) (snapshot : List UrlRecord) (w : World) (newUrl : UrlRecord) :
    World :=
  log P (saveUrlsToStorage P (dispatch w (.ADD_URL newUrl)) (snapshot ++ [newUrl])) .INFO
    "New shortened URL created"
    (.created newUrl.shortcode newUrl.originalUrl newUrl.validityMinutes newUrl.isCustom)

/-- The world reached by the `catch` and `finally` blocks after a throw. -/
def afterThrow (P : Platform) (w : World) (message : String) : World :=
  dispatch (dispatch (log P (dispatch w (.SET_LOADING true)) .ERROR
    "Failed to create shortened URL" (.error message)) (.SET_ERROR message)) (.SET_LOADING false)

/-! ## Concrete surroundings used to instantiate the statements -/

/-- A platform whose URL parser accepts the strings that start with `https://`. -/
def demoPlatform : Platform :=
  { urlParses := fun s => s.toList.take 8 == "https://".toList
    origin := "http://localhost:3000"
    href := "http://localhost:3000/"
    userAgent := "demo"
    logClock := 1700000000000
    urlsWritable := true
    logsWritable := true }

/-- A random source whose draws run through the alphabet. -/
def demoRand : Nat → Fin 62 := fun n => ⟨n % 62, Nat.mod_lt n (by decide)⟩

/-- The surroundings of a demonstration call at instant `1700000000000`. -/
def demoInput : AddInput :=
  { now := 1700000000000, idNow := 1700000000000, rand := demoRand, fuel := 4 }

/-- Three requests: a custom code, the same custom code again, a generated code. -/
def demoCalls : List AddCall :=
  [ { platform := demoPlatform, input := demoInput, originalUrl := "https://a.com",
      validityMinutes := some 1, customShortcode := some "abc" },
    { platform := demoPlatform, input := demoInput, originalUrl := "https://b.com",
      validityMinutes := none, customShortcode := some "abc" },
    { platform := demoPlatform, input := demoInput, originalUrl := "https://example.com",
      validityMinutes := some 30, customShortcode := none } ]

/-- The record created by the first demonstration call. -/
def demoRecord : UrlRecord :=
  mkNewUrl demoPlatform demoInput "https://a.com" 1 (some "abc") "abc"

/-- A world whose registry and stored collection hold `demoRecord` only. -/
def demoWorld : World :=
  { emptyWorld with
    state := { initialState with shortenedUrls := [demoRecord] }
    urlStore := .holds [demoRecord] }

/-- The click event built by `recordClick` once the location is known. -/
def mkClick (inp : ClickInput) (location : Location) : ClickEvent :=
  { timestamp := inp.clickClock
    source := if inp.referrer != "" then inp.referrer else "Direct"
    location := location }

/-- The update applied to the collection by a click on `shortcode`. -/
def appendClick (shortcode : String) (clickData : ClickEvent) (urls : List UrlRecord) :
    List UrlRecord :=
  urls.map (fun u =>
    if u.shortcode = shortcode then { u with clicks := u.clicks ++ [clickData] } else u)

/-- The world reached by the successful branch of `recordClick`. -/
def afterClick (P : Platform) (inp : ClickInput) (snapshot : List UrlRecord) (w : World)
    (shortcode : String) : World :=
  let located := getLocationData P w inp.geo
  let clickData := mkClick inp located.2
  log P (saveUrlsToStorage P (dispatch located.1 (.UPDATE_CLICKS shortcode clickData))
    (appendClick shortcode clickData snapshot)) .INFO "Click recorded"
    (.click shortcode clickData)

/-- A click made with no referrer, at the instant `demoRecord` was created, with the
geolocation request failing. -/
def demoClick : ClickInput :=
  { now := 1700000000000, clickClock := 1700000000000, referrer := "", geo := none }

/-- A click made one millisecond after `demoRecord` expired. -/
def lateClick : ClickInput :=
  { now := 1700000060001, clickClock := 1700000060001, referrer := "", geo := none }

/-! ## Listing by expiry -/

/-- The function `getValidUrls`, with `now` the instant `new Date()` it reads and
`urls` the `state.shortenedUrls` of its closure. -/
def getValidUrls (now : Int) (urls : List UrlRecord) : List UrlRecord :=
  urls.filter (fun url => decide (url.expiresAt > now))

/-- The function `getExpiredUrls`, with `now` the instant `new Date()` it reads. -/
def getExpiredUrls (now : Int) (urls : List UrlRecord) : List UrlRecord :=
  urls.filter (fun url => decide (url.expiresAt ≤ now))

/-- The expiry test of `recordClick`, of `handleRedirection` and of `getStatusChip`:
`new Date() > new Date(url.expiresAt)`. -/
def isExpiredAt (now : Int) (url : UrlRecord) : Bool := decide (now > url.expiresAt)

/-! ## Loading the stored collection -/

def msgLoadFailed : String := "Failed to load saved URLs"

/-- The `try` block of `loadUrlsFromStorage`.  `getItem` gives `null` for an absent key;
an empty text is falsy and skips the block; `JSON.parse` throws on a malformed text. -/
def loadUrlsFromStorageTry (P : Platform) (w : World) : World × Except String Unit :=
  match w.urlStore with
  | .absent => (w, .ok ())
  | .malformed text =>
      if text = "" then (w, .ok ()) else (w, .error "JSON.parse: unexpected token")
  | .holds urls =>
      let w1 := dispatch w (.LOAD_URLS urls)
      (log P w1 .INFO "URLs loaded from localStorage" (.count urls.length), .ok ())

/-- The function `loadUrlsFromStorage`: its `catch` block logs, dispatches `SET_ERROR`
and does not rethrow. -/
def loadUrlsFromStorage (P : Platform) (w : World) : World × Except String Unit :=
  match loadUrlsFromStorageTry P w with
  | (w1, .ok _) => (w1, .ok ())
  | (w1, .error message) =>
      let w2 := log P w1 .ERROR "Failed to load URLs from localStorage" (.error message)
      (dispatch w2 (.SET_ERROR msgLoadFailed), .ok ())

/-! ## Sequences of operations -/

/-- A request to the registry together with what its surroundings answer. -/
inductive Op where
  | add (call : AddCall)
  | click (platform : Platform) (input : ClickInput) (shortcode : String)

/-- Whether the `setItem` of the URL collection succeeds during the operation. -/
def Op.writable : Op → Bool
  | .add call => call.platform.urlsWritable
  | .click platform _ _ => platform.urlsWritable

/-- One operation run to completion on the current registry; `none` unless it returns
a record or an original URL. -/
def stepSuccessful (w : World) : Op → Option World
  | .add c =>
      match addFresh c.platform c.input w c.originalUrl c.validityMinutes c.customShortcode with
      | some (w1, .ok _) => some w1
      | _ => none
  | .click platform input shortcode =>
      match clickFresh platform input w shortcode with
      | (w1, .ok _) => some w1
      | _ => none

/-- A sequence of operations, each on the registry left by the previous one; `none`
unless all of them succeed. -/
def runSuccessful : World → List Op → Option World
  | w, [] => some w
  | w, op :: ops =>
      match stepSuccessful w op with
      | none => none
      | some w1 => runSuccessful w1 ops

/-- The record `demoRecord` at the instant it expires. -/
def demoExpiry : Int := 1700000060000

/-- A click made at the very instant `demoRecord` expires. -/
def boundaryClick : ClickInput :=
  { now := 1700000060000, clickClock := 1700000060000, referrer := "", geo := none }

/-- Two operations: the first demonstration call, then a click on its code. -/
def demoOps : List Op :=
  [ .add { platform := demoPlatform, input := demoInput, originalUrl := "https://a.com",
           validityMinutes := some 1, customShortcode := some "abc" },
    .click demoPlatform demoClick "abc" ]

/-- The object literal `logEntry` of `log`. -/
def mkLogEntry (P : Platform) (level : Level) (message : String) (data : LogData) : LogEntry :=
  { timestamp := P.logClock, level := level, message := message, data := data,
    userAgent := P.userAgent, url := P.href }

/-- The demonstration platform with a `localStorage` that rejects writes of the URL
collection (quota exceeded). -/
def failingPlatform : Platform := { demoPlatform with urlsWritable := false }

/-- The entry logged by `saveUrlsToStorage` when `setItem` throws. -/
def saveFailureEntry (P : Platform) : LogEntry :=
  mkLogEntry P .ERROR "Failed to save URLs to localStorage" (.error "setItem failed")

/-- The world at start-up when an earlier session stored `demoRecord`. -/
def storedWorld : World := { emptyWorld with urlStore := .holds [demoRecord] }

/-- The world at start-up when the stored text is not JSON. -/
def corruptWorld : World := { emptyWorld with urlStore := .malformed "[oops" }

/-- Two requests answered within the same millisecond: both read `Date.now()` as
`1700000000000`. -/
def sameMsCalls : List AddCall :=
  [ { platform := demoPlatform, input := demoInput, originalUrl := "https://a.com",
      validityMinutes := some 30, customShortcode := some "abc" },
    { platform := demoPlatform, input := demoInput, originalUrl := "https://b.com",
      validityMinutes := some 30, customShortcode := some "xyz" } ]

/-- The click event of a demonstration click. -/
def demoEvent : ClickEvent :=
  mkClick demoClick { country := "Unknown", city := "Unknown", region := "Unknown" }

/-! ## The form (`UrlShortenerForm.jsx`) -/

/-- White space and line terminators, the characters removed by `String.prototype.trim`. -/
def isJsSpace (c : Char) : Bool :=
  let n := c.toNat
  n == 9 || n == 10 || n == 11 || n == 12 || n == 13 || n == 32 || n == 160 || n == 5760
    || (decide (8192 ≤ n) && decide (n ≤ 8202)) || n == 8232 || n == 8233 || n == 8239
    || n == 8287 || n == 12288 || n == 65279

/-- The method `s.trim()`. -/
def trim (s : String) : String :=
  String.mk ((s.toList.dropWhile isJsSpace).reverse.dropWhile isJsSpace).reverse

/-- The value of the field `validityMinutes` of a form entry (the number 30 or the text
of a numeric input), through the four ways the form looks at it. -/
structure MinutesField where
  /-- The value is truthy: neither the empty text nor the number zero. -/
  truthy : Bool
  /-- The result of `isNaN(value)`. -/
  isNaN : Bool
  /-- The result of `value <= 0`. -/
  nonPositive : Bool
  /-- The result of `parseInt(value)`, `none` for `NaN`. -/
  parsed : Option Int

/-- A field holding the number `n`. -/
def MinutesField.ofNumber (n : Int) : MinutesField :=
  { truthy := n != 0, isNaN := false, nonPositive := decide (n ≤ 0), parsed := some n }

/-- A field left empty. -/
def MinutesField.blank : MinutesField :=
  { truthy := false, isNaN := false, nonPositive := true, parsed := none }

/-- One element of the form state `urls`. -/
structure FormEntry where
  id : Nat
  originalUrl : String
  validityMinutes : MinutesField
  customShortcode : String

/-- The body of the `forEach` of `validateForm`: whether the entry records an error. -/
def entryHasError (P : Platform) (url : FormEntry) : Bool :=
  let urlError := if trim url.originalUrl == "" then true else !P.urlParses url.originalUrl
  let minutesError :=
    url.validityMinutes.truthy && (url.validityMinutes.isNaN || url.validityMinutes.nonPositive)
  let shortcodeError := url.customShortcode != "" && !validateShortcode url.customShortcode
  urlError || minutesError || shortcodeError

/-- The function `validateForm`: the final value of `isValid`. -/
def validateForm (P : Platform) (urls : List FormEntry) : Bool :=
  urls.foldl (fun isValid url => if entryHasError P url then false else isValid) true

/-- The expression `parseInt(url.validityMinutes) || 30`. -/
def minutesArgument (f : MinutesField) : Int :=
  match f.parsed with
  | some n => if n = 0 then 30 else n
  | none => 30

/-- The expression `url.customShortcode.trim() || null`. -/
def customArgument (customShortcode : String) : Option String :=
  if trim customShortcode != "" then some (trim customShortcode) else none

/-- The `for` loop of `handleSubmit`.  Every iteration calls the `addShortenedUrl` of the
render that created the handler, hence with the same `snapshot`; `inputs i` is what the
surroundings answer during call number `i`. -/
def submitLoop (P : Platform) (inputs : Nat → AddInput) (snapshot : List UrlRecord) :
    World → List FormEntry → Nat → List UrlRecord → Option (World × List UrlRecord)
  | w, [], _, newResults => some (w, newResults)
  | w, url :: rest, i, newResults =>
      match addShortenedUrl P (inputs i) snapshot w (trim url.originalUrl)
          (some (minutesArgument url.validityMinutes)) (customArgument url.customShortcode) with
      | none => none
      | some (w1, .ok result) =>
          submitLoop P inputs snapshot w1 rest (i + 1) (newResults ++ [result])
      | some (w1, .error message) =>
          submitLoop P inputs snapshot
            (log P w1 .ERROR "Failed to shorten URL" (.error message)) rest (i + 1) newResults

/-- The function `handleSubmit`; the second component is `newResults`. -/
def handleSubmit (P : Platform) (inputs : Nat → AddInput) (snapshot : List UrlRecord)
    (w : World) (urls : List FormEntry) : Option (World × List UrlRecord) :=
  let w0 := dispatch w .CLEAR_ERROR
  if !validateForm P urls then
    some (log P w0 .WARN "Form validation failed" .null, [])
  else
    match submitLoop P inputs snapshot w0 urls 0 [] with
    | none => none
    | some (w1, newResults) =>
        if newResults.length > 0 then
          some (log P w1 .INFO "URLs shortened successfully" (.count newResults.length),
                newResults)
        else some (w1, newResults)

/-- A form with two entries, custom codes `abc` and `xyz`. -/
def demoForm : List FormEntry :=
  [ { id := 1, originalUrl := "https://a.com", validityMinutes := .ofNumber 30,
      customShortcode := "abc" },
    { id := 2, originalUrl := "https://b.com", validityMinutes := .blank,
      customShortcode := "xyz" } ]

/-- A form with two entries that carry the same custom code `abc`. -/
def dupForm : List FormEntry :=
  [ { id := 1, originalUrl := "https://a.com", validityMinutes := .ofNumber 30,
      customShortcode := "abc" },
    { id := 2, originalUrl := "https://b.com", validityMinutes := .ofNumber 30,
      customShortcode := "abc" } ]

/-- The two requests of `dupForm`, for a run in which each call reads the registry left
by the previous one. -/
def dupCalls : List AddCall :=
  [ { platform := demoPlatform, input := demoInput, originalUrl := "https://a.com",
      validityMinutes := some 30, customShortcode := some "abc" },
    { platform := demoPlatform, input := demoInput, originalUrl := "https://b.com",
      validityMinutes := some 30, customShortcode := some "abc" } ]

/-- A form with two entries without custom code. -/
def plainForm : List FormEntry :=
  [ { id := 1, originalUrl := "https://a.com", validityMinutes := .ofNumber 30,
      customShortcode := "" },
    { id := 2, originalUrl := "https://b.com", validityMinutes := .ofNumber 30,
      customShortcode := "" } ]

/-! ## Effects of the primitive steps -/

@[simp] theorem dispatch_state (w : World) (a : Action) :
    (dispatch w a).state = urlReducer w.state a := rfl

@[simp] theorem dispatch_urlStore (w : World) (a : Action) :
    (dispatch w a).urlStore = w.urlStore := rfl

@[simp] theorem dispatch_urlWrites (w : World) (a : Action) :
    (dispatch w a).urlWrites = w.urlWrites := rfl

@[simp] theorem dispatch_dispatched (w : World) (a : Action) :
    (dispatch w a).dispatched = w.dispatched ++ [a] := rfl

@[simp] theorem log_state (P : Platform) (w : World) (l : Level) (m : String) (d : LogData) :
    (log P w l m d).state = w.state := by
  unfold log persistLogs; split <;> rfl

@[simp] theorem log_urlStore (P : Platform) (w : World) (l : Level) (m : String) (d : LogData) :
    (log P w l m d).urlStore = w.urlStore := by
  unfold log persistLogs; split <;> rfl

@[simp] theorem log_urlWrites (P : Platform) (w : World) (l : Level) (m : String) (d : LogData) :
    (log P w l m d).urlWrites = w.urlWrites := by
  unfold log persistLogs; split <;> rfl

@[simp] theorem log_dispatched (P : Platform) (w : World) (l : Level) (m : String)
    (d : LogData) : (log P w l m d).dispatched = w.dispatched := by
  unfold log persistLogs; split <;> rfl

@[simp] theorem save_state (P : Platform) (w : World) (urls : List UrlRecord) :
    (saveUrlsToStorage P w urls).state = w.state := by
  unfold saveUrlsToStorage; split <;> simp

@[simp] theorem save_dispatched (P : Platform) (w : World) (urls : List UrlRecord) :
    (saveUrlsToStorage P w urls).dispatched = w.dispatched := by
  unfold saveUrlsToStorage; split <;> simp

@[simp] theorem save_urlWrites (P : Platform) (w : World) (urls : List UrlRecord) :
    (saveUrlsToStorage P w urls).urlWrites = w.urlWrites + 1 := by
  unfold saveUrlsToStorage; split <;> simp

@[simp] theorem reducer_loading_urls (s : State) (b : Bool) :
    (urlReducer s (.SET_LOADING b)).shortenedUrls = s.shortenedUrls := rfl

@[simp] theorem reducer_error_urls (s : State) (m : String) :
    (urlReducer s (.SET_ERROR m)).shortenedUrls = s.shortenedUrls := rfl

@[simp] theorem reducer_add_urls (s : State) (r : UrlRecord) :
    (urlReducer s (.ADD_URL r)).shortenedUrls = s.shortenedUrls ++ [r] := rfl


/-! ## Validation and generation lemmas -/

theorem matchRepeat_atEnd (cls : Char → Bool) (hi : Nat) :
    ∀ (lo : Nat) (cs : List Char),
      matchRepeat cls atEnd lo hi cs = true ↔
        lo ≤ cs.length ∧ cs.length ≤ hi ∧ ∀ c ∈ cs, cls c = true := by
  induction hi with
  | zero =>
      intro lo cs
      cases cs <;> simp [matchRepeat, atEnd]
  | succ hi ih =>
      intro lo cs
      cases cs with
      | nil => simp [matchRepeat, atEnd]
      | cons c cs =>
          simp only [matchRepeat, atEnd, List.isEmpty_cons, Bool.and_false, Bool.or_false,
            Bool.and_eq_true, ih, List.length_cons, List.mem_cons, forall_eq_or_imp]
          constructor
          · rintro ⟨h1, h2, h3, h4⟩
            exact ⟨by omega, by omega, h1, h4⟩
          · rintro ⟨h1, h2, h3, h4⟩
            exact ⟨h3, by omega, by omega, h4⟩

theorem charAt_chars (i : Fin 62) :
    (charAt chars i.val).length = 1 ∧ (charAt chars i.val).toList.all isAlnum = true := by
  revert i; decide

theorem drawChars_toList (rand : Nat → Fin 62) :
    ∀ (n pos : Nat) (acc : String),
      ∃ cs : List Char, cs.length = n ∧ (∀ c ∈ cs, isAlnum c = true) ∧
        (drawChars rand n pos acc).toList = acc.toList ++ cs := by
  intro n
  induction n with
  | zero => intro pos acc; exact ⟨[], rfl, by simp, by simp [drawChars]⟩
  | succ n ih =>
      intro pos acc
      obtain ⟨cs, hlen, hall, heq⟩ := ih (pos + 1) (acc ++ charAt chars (rand pos).val)
      obtain ⟨h1, h2⟩ := charAt_chars (rand pos)
      refine ⟨(charAt chars (rand pos).val).toList ++ cs, ?_, ?_, ?_⟩
      · have : (charAt chars (rand pos).val).toList.length = 1 := h1
        simp [this, hlen]; omega
      · intro c hc
        rcases List.mem_append.mp hc with hc | hc
        · exact List.all_eq_true.mp h2 c hc
        · exact hall c hc
      · show (drawChars rand n (pos + 1) (acc ++ charAt chars (rand pos).val)).toList = _
        rw [heq]
        simp only [String.toList, String.data_append, List.append_assoc]

/-- Each candidate built by one round of the loop has six characters, all of the
class `[a-zA-Z0-9]`. -/
theorem candidate_wellFormed (rand : Nat → Fin 62) (pos : Nat) :
    (drawChars rand 6 pos "").length = 6 ∧
      ∀ c ∈ (drawChars rand 6 pos "").toList, isAlnum c = true := by
  obtain ⟨cs, hlen, hall, heq⟩ := drawChars_toList rand 6 pos ""
  have h0 : ("" : String).toList = [] := rfl
  rw [h0, List.nil_append] at heq
  constructor
  · show (drawChars rand 6 pos "").toList.length = 6
    rw [heq, hlen]
  · intro c hc
    rw [heq] at hc; exact hall c hc

theorem any_shortcode_iff (urls : List UrlRecord) (code : String) :
    urls.any (fun url => url.shortcode == code) = true ↔ code ∈ codes urls := by
  simp only [List.any_eq_true, beq_iff_eq, codes, List.mem_map]

/-- A code returned by `generateShortcode` is one of the candidates, and it is
not the shortcode of any record of the snapshot. -/
theorem generateShortcode_some (snapshot : List UrlRecord) (rand : Nat → Fin 62) :
    ∀ (fuel pos : Nat) (code : String),
      generateShortcode snapshot rand fuel pos = some code →
        (∃ p, code = drawChars rand 6 p "") ∧ code ∉ codes snapshot := by
  intro fuel
  induction fuel with
  | zero => intro pos code h; simp [generateShortcode] at h
  | succ fuel ih =>
      intro pos code h
      simp only [generateShortcode] at h
      split at h
      · exact ih _ _ h
      · rename_i hnot
        injection h with h
        subst h
        exact ⟨⟨pos, rfl⟩, fun hmem => hnot ((any_shortcode_iff _ _).mpr hmem)⟩

/-- When the candidate of round `k` is free, `k + 1` rounds or more are enough for
`generateShortcode` to return. -/
theorem generateShortcode_returns (snapshot : List UrlRecord) (rand : Nat → Fin 62) :
    ∀ (k fuel pos : Nat), k < fuel →
      drawChars rand 6 (pos + 6 * k) "" ∉ codes snapshot →
        ∃ code, generateShortcode snapshot rand fuel pos = some code := by
  intro k
  induction k with
  | zero =>
      intro fuel pos hk hfree
      obtain ⟨fuel, rfl⟩ : ∃ f, fuel = f + 1 := ⟨fuel - 1, by omega⟩
      simp only [Nat.mul_zero, Nat.add_zero] at hfree
      refine ⟨drawChars rand 6 pos "", ?_⟩
      simp only [generateShortcode]
      rw [if_neg]
      exact fun h => hfree ((any_shortcode_iff _ _).mp h)
  | succ k ih =>
      intro fuel pos hk hfree
      obtain ⟨fuel, rfl⟩ : ∃ f, fuel = f + 1 := ⟨fuel - 1, by omega⟩
      simp only [generateShortcode]
      split
      · apply ih fuel (pos + 6) (by omega)
        have : pos + 6 + 6 * k = pos + 6 * (k + 1) := by ring
        rw [this]; exact hfree
      · exact ⟨_, rfl⟩

/-! ## The outcomes of `addShortenedUrl` -/

theorem truthy_some {c : Option String} (h : truthy c = true) :
    ∃ s, c = some s ∧ s ≠ "" ∧ c.getD "" = s := by
  cases c with
  | none => simp [truthy] at h
  | some s => exact ⟨s, rfl, by simpa [truthy] using h, rfl⟩

theorem addShortenedUrlTry_ok {P : Platform} {inp : AddInput} {snapshot : List UrlRecord}
    {w w1 : World} {originalUrl : String} {v : Int} {custom : Option String} {r : UrlRecord}
    (h : addShortenedUrlTry P inp snapshot w originalUrl v custom = some (w1, .ok r)) :
    validateUrl P originalUrl = true ∧
      (∃ code, r = mkNewUrl P inp originalUrl v custom code ∧
        ((truthy custom = true ∧ custom = some code ∧ validateShortcode code = true ∧
            code ∉ codes snapshot) ∨
         (truthy custom = false ∧
            generateShortcode snapshot inp.rand inp.fuel 0 = some code))) ∧
      w1 = afterCreate P snapshot w r := by
  unfold addShortenedUrlTry at h
  split at h
  · simp at h
  · rename_i hurl
    split at h
    · simp at h
    · rename_i hfmt
      split at h
      · simp at h
      · rename_i hdup
        have hurl1 : validateUrl P originalUrl = true := by simpa using hurl
        refine ⟨hurl1, ?_⟩
        cases ht : truthy custom with
        | true =>
            obtain ⟨s, hs, _, hget⟩ := truthy_some ht
            simp only [ht, Bool.true_and, Bool.not_eq_true, Bool.not_eq_false_eq_eq_true,
              Bool.not_eq_true_eq_eq_false, ite_true, hget] at h hfmt hdup
            have hfmt1 : validateShortcode s = true := by simpa using hfmt
            have hdup1 : s ∉ codes snapshot := by
              rw [← any_shortcode_iff]; simpa using hdup
            injection h with h
            injection h with hw hr
            injection hr with hr
            refine ⟨⟨s, hr.symm, Or.inl ⟨rfl, hs, hfmt1, hdup1⟩⟩, ?_⟩
            rw [← hw, ← hr]; simp only [afterCreate, mkNewUrl, ht]
        | false =>
            simp only [ht, ite_false, Bool.false_eq_true] at h
            split at h
            · simp at h
            · rename_i code hgen
              injection h with h
              injection h with hw hr
              injection hr with hr
              refine ⟨⟨code, hr.symm, Or.inr ⟨rfl, hgen⟩⟩, ?_⟩
              rw [← hw, ← hr]; simp only [afterCreate, mkNewUrl, ht]

theorem addShortenedUrlTry_error {P : Platform} {inp : AddInput} {snapshot : List UrlRecord}
    {w w1 : World} {originalUrl : String} {v : Int} {custom : Option String} {m : String}
    (h : addShortenedUrlTry P inp snapshot w originalUrl v custom = some (w1, .error m)) :
    w1 = w := by
  unfold addShortenedUrlTry at h
  split at h
  · injection h with h; injection h with hw _; exact hw.symm
  · split at h
    · injection h with h; injection h with hw _; exact hw.symm
    · split at h
      · injection h with h; injection h with hw _; exact hw.symm
      · split at h
        · simp at h
        · simp at h

theorem addShortenedUrl_ok {P : Platform} {inp : AddInput} {snapshot : List UrlRecord}
    {w w1 : World} {originalUrl : String} {vm : Option Int} {custom : Option String}
    {r : UrlRecord}
    (h : addShortenedUrl P inp snapshot w originalUrl vm custom = some (w1, .ok r)) :
    validateUrl P originalUrl = true ∧
      (∃ code, r = mkNewUrl P inp originalUrl (vm.getD 30) custom code ∧
        ((truthy custom = true ∧ custom = some code ∧ validateShortcode code = true ∧
            code ∉ codes snapshot) ∨
         (truthy custom = false ∧
            generateShortcode snapshot inp.rand inp.fuel 0 = some code))) ∧
      w1 = dispatch (afterCreate P snapshot (dispatch w (.SET_LOADING true)) r)
            (.SET_LOADING false) := by
  unfold addShortenedUrl at h
  simp only at h
  split at h
  · simp at h
  · rename_i w2 r2 htry
    injection h with h
    injection h with hw hr
    injection hr with hr
    subst hr
    obtain ⟨h1, h2, h3⟩ := addShortenedUrlTry_ok htry
    exact ⟨h1, h2, by rw [← hw, h3]⟩
  · simp at h

theorem addShortenedUrl_error {P : Platform} {inp : AddInput} {snapshot : List UrlRecord}
    {w w1 : World} {originalUrl : String} {vm : Option Int} {custom : Option String}
    {m : String}
    (h : addShortenedUrl P inp snapshot w originalUrl vm custom = some (w1, .error m)) :
    w1 = afterThrow P w m := by
  unfold addShortenedUrl at h
  simp only at h
  split at h
  · simp at h
  · simp at h
  · rename_i w2 m2 htry
    injection h with h
    injection h with hw hm
    injection hm with hm
    subst hm
    rw [← hw, addShortenedUrlTry_error htry]; rfl

@[simp] theorem afterThrow_urls (P : Platform) (w : World) (m : String) :
    (afterThrow P w m).state.shortenedUrls = w.state.shortenedUrls := by
  simp [afterThrow]

@[simp] theorem afterThrow_urlStore (P : Platform) (w : World) (m : String) :
    (afterThrow P w m).urlStore = w.urlStore := by
  simp [afterThrow]

@[simp] theorem afterThrow_urlWrites (P : Platform) (w : World) (m : String) :
    (afterThrow P w m).urlWrites = w.urlWrites := by
  simp [afterThrow]

@[simp] theorem afterCreate_urls (P : Platform) (snapshot : List UrlRecord) (w : World)
    (r : UrlRecord) :
    (afterCreate P snapshot w r).state.shortenedUrls = w.state.shortenedUrls ++ [r] := by
  simp [afterCreate]

/-! ## Direct evaluation of `addShortenedUrl` on each branch -/

theorem addShortenedUrl_invalidUrl (P : Platform) (inp : AddInput) (snapshot : List UrlRecord)
    (w : World) (originalUrl : String) (vm : Option Int) (custom : Option String)
    (hurl : validateUrl P originalUrl = false) :
    addShortenedUrl P inp snapshot w originalUrl vm custom =
      some (afterThrow P w msgInvalidUrl, .error msgInvalidUrl) := by
  simp [addShortenedUrl, addShortenedUrlTry, hurl, afterThrow]

theorem addShortenedUrl_badFormat (P : Platform) (inp : AddInput) (snapshot : List UrlRecord)
    (w : World) (originalUrl : String) (vm : Option Int) (s : String)
    (hurl : validateUrl P originalUrl = true) (hs : s ≠ "")
    (hfmt : validateShortcode s = false) :
    addShortenedUrl P inp snapshot w originalUrl vm (some s) =
      some (afterThrow P w msgInvalidShortcode, .error msgInvalidShortcode) := by
  simp [addShortenedUrl, addShortenedUrlTry, hurl, truthy, hs, hfmt, afterThrow]

theorem addShortenedUrl_taken (P : Platform) (inp : AddInput) (snapshot : List UrlRecord)
    (w : World) (originalUrl : String) (vm : Option Int) (s : String)
    (hurl : validateUrl P originalUrl = true) (hs : s ≠ "")
    (hfmt : validateShortcode s = true) (hmem : s ∈ codes snapshot) :
    addShortenedUrl P inp snapshot w originalUrl vm (some s) =
      some (afterThrow P w msgShortcodeExists, .error msgShortcodeExists) := by
  have hany := (any_shortcode_iff snapshot s).mpr hmem
  simp only [addShortenedUrl, addShortenedUrlTry, hurl, truthy, hfmt, afterThrow,
    Option.getD_some, hany]
  simp [hs]

theorem addShortenedUrl_custom (P : Platform) (inp : AddInput) (snapshot : List UrlRecord)
    (w : World) (originalUrl : String) (vm : Option Int) (s : String)
    (hurl : validateUrl P originalUrl = true) (hs : s ≠ "")
    (hfmt : validateShortcode s = true) (hmem : s ∉ codes snapshot) :
    addShortenedUrl P inp snapshot w originalUrl vm (some s) =
      some (dispatch (afterCreate P snapshot (dispatch w (.SET_LOADING true))
              (mkNewUrl P inp originalUrl (vm.getD 30) (some s) s)) (.SET_LOADING false),
            .ok (mkNewUrl P inp originalUrl (vm.getD 30) (some s) s)) := by
  have hany : snapshot.any (fun url => url.shortcode == s) = false := by
    rw [← Bool.not_eq_true, any_shortcode_iff]; exact hmem
  simp only [addShortenedUrl, addShortenedUrlTry, hurl, truthy, hfmt, afterCreate,
    Option.getD_some, hany, mkNewUrl]
  simp [hs]

theorem addShortenedUrl_generated (P : Platform) (inp : AddInput) (snapshot : List UrlRecord)
    (w : World) (originalUrl : String) (vm : Option Int) (custom : Option String)
    (code : String)
    (hurl : validateUrl P originalUrl = true) (hc : truthy custom = false)
    (hgen : generateShortcode snapshot inp.rand inp.fuel 0 = some code) :
    addShortenedUrl P inp snapshot w originalUrl vm custom =
      some (dispatch (afterCreate P snapshot (dispatch w (.SET_LOADING true))
              (mkNewUrl P inp originalUrl (vm.getD 30) custom code)) (.SET_LOADING false),
            .ok (mkNewUrl P inp originalUrl (vm.getD 30) custom code)) := by
  simp [addShortenedUrl, addShortenedUrlTry, hurl, hc, hgen, afterCreate, mkNewUrl]

/-! ## The claims -/

theorem codes_append (urls : List UrlRecord) (r : UrlRecord) :
    codes (urls ++ [r]) = codes urls ++ [r.shortcode] := by
  simp [codes]

/-- One returning call of `addShortenedUrl`, made on the current registry, keeps
the shortcodes pairwise distinct. -/
theorem addFresh_nodup {P : Platform} {inp : AddInput} {w w1 : World} {originalUrl : String}
    {vm : Option Int} {custom : Option String} {res : Except String UrlRecord}
    (h0 : (codes w.state.shortenedUrls).Nodup)
    (h : addFresh P inp w originalUrl vm custom = some (w1, res)) :
    (codes w1.state.shortenedUrls).Nodup := by
  unfold addFresh at h
  cases res with
  | error m =>
      rw [addShortenedUrl_error h]; simpa using h0
  | ok r =>
      obtain ⟨_, ⟨code, hr, hcode⟩, hw⟩ := addShortenedUrl_ok h
      have hfree : code ∉ codes w.state.shortenedUrls := by
        rcases hcode with ⟨_, _, _, hfree⟩ | ⟨_, hgen⟩
        · exact hfree
        · exact (generateShortcode_some _ _ _ _ _ hgen).2
      have hsc : r.shortcode = code := by rw [hr]; rfl
      rw [hw]
      simp only [dispatch_state, reducer_loading_urls, afterCreate_urls, codes_append, hsc]
      exact List.Nodup.append h0 (List.nodup_singleton _)
        (by
          intro a ha hb
          rw [List.mem_singleton] at hb
          exact hfree (hb ▸ ha))

/-- Claim C1. Starting from a registry whose shortcodes are pairwise distinct, after
any finite sequence of `addShortenedUrl` calls (custom or generated codes, returning a
record or throwing), each call reading the registry left by the previous one, the
shortcodes of `state.shortenedUrls` are pairwise distinct.  The statement ranges over
all sequences, hence over every point in the run of a longer sequence. -/
theorem C1_shortcodes_pairwise_distinct (calls : List AddCall) :
    ∀ (w w1 : World), (codes w.state.shortenedUrls).Nodup →
      runAdds w calls = some w1 → (codes w1.state.shortenedUrls).Nodup := by
  induction calls with
  | nil =>
      intro w w1 h0 h
      simp only [runAdds] at h
      injection h with h
      rw [← h]; exact h0
  | cons c cs ih =>
      intro w w1 h0 h
      simp only [runAdds] at h
      split at h
      · simp at h
      · rename_i w2 res hstep
        exact ih w2 w1 (addFresh_nodup h0 hstep) h

/-- An instance of C1: from the empty registry the three demonstration calls (the
second one is rejected) run to completion and leave distinct shortcodes. -/
theorem C1_shortcodes_pairwise_distinct_witness :
    ∃ w1, runAdds emptyWorld demoCalls = some w1 ∧ w1.state.shortenedUrls.length = 2 ∧
      (codes w1.state.shortenedUrls).Nodup :=
  ⟨(runAdds emptyWorld demoCalls).get (by decide), by simp, by decide,
    C1_shortcodes_pairwise_distinct demoCalls emptyWorld _ (by decide) (by simp)⟩

/-- Claim C2. For every registry and every `originalUrl` accepted by `validateUrl`,
`addShortenedUrl` called without a custom shortcode, on a random source whose round
`k` yields a code not in the registry and with the loop allowed to run that far,
returns a record whose shortcode has exactly six characters, all in `[A-Za-z0-9]`, and
differs from the shortcode of every record in the registry at call time. -/
theorem C2_generated_shortcode (P : Platform) (inp : AddInput) (w : World)
    (originalUrl : String) (vm : Option Int) (k : Nat)
    (hurl : validateUrl P originalUrl = true)
    (hfree : drawChars inp.rand 6 (6 * k) "" ∉ codes w.state.shortenedUrls)
    (hfuel : k < inp.fuel) :
    ∃ w1 r, addFresh P inp w originalUrl vm none = some (w1, .ok r) ∧
      r.shortcode.length = 6 ∧
      (∀ c ∈ r.shortcode.toList,
        ('a' ≤ c ∧ c ≤ 'z') ∨ ('A' ≤ c ∧ c ≤ 'Z') ∨ ('0' ≤ c ∧ c ≤ '9')) ∧
      ∀ u ∈ w.state.shortenedUrls, u.shortcode ≠ r.shortcode := by
  obtain ⟨code, hgen⟩ := generateShortcode_returns w.state.shortenedUrls inp.rand k inp.fuel 0
    hfuel (by simpa using hfree)
  obtain ⟨⟨p, hp⟩, hnew⟩ := generateShortcode_some _ _ _ _ _ hgen
  obtain ⟨hlen, hcls⟩ := candidate_wellFormed inp.rand p
  refine ⟨_, _, addShortenedUrl_generated P inp _ w originalUrl vm none code hurl rfl hgen,
    ?_, ?_, ?_⟩
  · show code.length = 6
    rw [hp]; exact hlen
  · intro c hc
    have hc1 : c ∈ code.toList := hc
    rw [hp] at hc1
    have := hcls c hc1
    simp only [isAlnum, Bool.or_eq_true, Bool.and_eq_true, decide_eq_true_eq] at this
    rcases this with (h | h) | h
    · exact Or.inl h
    · exact Or.inr (Or.inl h)
    · exact Or.inr (Or.inr h)
  · intro u hu heq
    apply hnew
    show code ∈ codes w.state.shortenedUrls
    exact List.mem_map.mpr ⟨u, hu, heq⟩

/-- An instance of C2: the first generated code on the empty registry. -/
theorem C2_generated_shortcode_witness :
    ∃ w1 r, addFresh demoPlatform demoInput emptyWorld "https://example.com" (some 30) none
        = some (w1, .ok r) ∧
      r.shortcode.length = 6 ∧
      (∀ c ∈ r.shortcode.toList,
        ('a' ≤ c ∧ c ≤ 'z') ∨ ('A' ≤ c ∧ c ≤ 'Z') ∨ ('0' ≤ c ∧ c ≤ '9')) ∧
      ∀ u ∈ emptyWorld.state.shortenedUrls, u.shortcode ≠ r.shortcode :=
  C2_generated_shortcode demoPlatform demoInput emptyWorld "https://example.com" (some 30) 0
    (by decide) (by decide) (by decide)

/-- The test of `/^[a-zA-Z0-9]{3,10}$/` in terms of length and character class. -/
theorem validateShortcode_spec (s : String) :
    validateShortcode s = true ↔
      (3 ≤ s.length ∧ s.length ≤ 10 ∧
        ∀ c ∈ s.toList,
          ('a' ≤ c ∧ c ≤ 'z') ∨ ('A' ≤ c ∧ c ≤ 'Z') ∨ ('0' ≤ c ∧ c ≤ '9')) := by
  unfold validateShortcode
  rw [matchRepeat_atEnd]
  have hlen : s.toList.length = s.length := rfl
  rw [hlen]
  have hcls : ∀ c : Char, isAlnum c = true ↔
      (('a' ≤ c ∧ c ≤ 'z') ∨ ('A' ≤ c ∧ c ≤ 'Z') ∨ ('0' ≤ c ∧ c ≤ '9')) := by
    intro c
    simp only [isAlnum, Bool.or_eq_true, Bool.and_eq_true, decide_eq_true_eq, or_assoc]
  simp only [hcls]

/-- Claim C3. For every string `s`, `validateShortcode s` is true exactly when `s` has
between 3 and 10 characters, all of them in `[A-Za-z0-9]`; the codes `ab`, an
11-character code, `ab-c` and `abc` followed by a line feed are rejected, `abc` and
`ABCdef1234` are accepted. -/
theorem C3_validateShortcode_iff :
    (∀ s : String, validateShortcode s = true ↔
      (3 ≤ s.length ∧ s.length ≤ 10 ∧
        ∀ c ∈ s.toList,
          ('a' ≤ c ∧ c ≤ 'z') ∨ ('A' ≤ c ∧ c ≤ 'Z') ∨ ('0' ≤ c ∧ c ≤ '9'))) ∧
    validateShortcode "ab" = false ∧ validateShortcode "abcdefghijk" = false ∧
    validateShortcode "ab-c" = false ∧ validateShortcode "abc\n" = false ∧
    validateShortcode "abc" = true ∧ validateShortcode "ABCdef1234" = true :=
  ⟨validateShortcode_spec, by decide, by decide, by decide, by decide, by decide, by decide⟩

/-- The counterexample to C4 as stated: a supplied custom shortcode that is the empty
string is malformed, yet the call returns a record (with a generated code), the
registry grows from 0 to 1 record and the collection is written to storage. -/
theorem C4_empty_custom_counterexample :
    validateShortcode "" = false ∧
    ∃ w1 r, addFresh demoPlatform demoInput emptyWorld "https://example.com" (some 30)
        (some "") = some (w1, .ok r) ∧
      w1.state.shortenedUrls = [r] ∧ r.isCustom = false ∧ r.shortcode.length = 6 ∧
      w1.urlStore = .holds [r] ∧ w1.urlWrites = 1 := by
  refine ⟨by decide, _, _,
    addShortenedUrl_generated demoPlatform demoInput [] emptyWorld "https://example.com"
      (some 30) (some "") (drawChars demoRand 6 0 "") (by decide) (by decide) (by decide),
    by decide, by decide, by decide, by decide, by decide⟩

/-- Claim C4, amended. For every registry, every valid `originalUrl` and every non-empty
`customShortcode` that does not consist of 3 to 10 characters of `[A-Za-z0-9]`,
`addShortenedUrl` throws the invalid-shortcode-format error; `state.shortenedUrls` is
unchanged and the stored URL collection is not written. -/
theorem C4_malformed_custom_rejected (P : Platform) (inp : AddInput)
    (snapshot : List UrlRecord) (w : World) (originalUrl : String) (vm : Option Int)
    (s : String) (hurl : validateUrl P originalUrl = true) (hs : s ≠ "")
    (hbad : ¬ (3 ≤ s.length ∧ s.length ≤ 10 ∧
        ∀ c ∈ s.toList,
          ('a' ≤ c ∧ c ≤ 'z') ∨ ('A' ≤ c ∧ c ≤ 'Z') ∨ ('0' ≤ c ∧ c ≤ '9'))) :
    ∃ w1, addShortenedUrl P inp snapshot w originalUrl vm (some s)
        = some (w1, .error msgInvalidShortcode) ∧
      w1.state.shortenedUrls = w.state.shortenedUrls ∧
      w1.state.shortenedUrls.length = w.state.shortenedUrls.length ∧
      w1.urlStore = w.urlStore ∧ w1.urlWrites = w.urlWrites := by
  have hfmt : validateShortcode s = false := by
    rw [← Bool.not_eq_true, validateShortcode_spec]; exact hbad
  exact ⟨_, addShortenedUrl_badFormat P inp snapshot w originalUrl vm s hurl hs hfmt,
    by simp, by simp, by simp, by simp⟩

/-- An instance of amended C4: the custom code `ab-c` on the empty registry. -/
theorem C4_malformed_custom_rejected_witness :
    ∃ w1, addShortenedUrl demoPlatform demoInput [] emptyWorld "https://example.com"
        (some 30) (some "ab-c") = some (w1, .error msgInvalidShortcode) ∧
      w1.state.shortenedUrls = emptyWorld.state.shortenedUrls ∧
      w1.state.shortenedUrls.length = emptyWorld.state.shortenedUrls.length ∧
      w1.urlStore = emptyWorld.urlStore ∧ w1.urlWrites = emptyWorld.urlWrites :=
  C4_malformed_custom_rejected demoPlatform demoInput [] emptyWorld "https://example.com"
    (some 30) "ab-c" (by decide) (by decide) (by decide)

/-- Claim C5. For every registry, every valid `originalUrl` and every well-formed
`customShortcode` equal to the shortcode of some record of the registry,
`addShortenedUrl` throws the shortcode-already-exists error; `state.shortenedUrls` is
unchanged and the stored URL collection is not written. -/
theorem C5_taken_custom_rejected (P : Platform) (inp : AddInput) (w : World)
    (originalUrl : String) (vm : Option Int) (s : String) (u : UrlRecord)
    (hurl : validateUrl P originalUrl = true)
    (hfmt : 3 ≤ s.length ∧ s.length ≤ 10 ∧
        ∀ c ∈ s.toList,
          ('a' ≤ c ∧ c ≤ 'z') ∨ ('A' ≤ c ∧ c ≤ 'Z') ∨ ('0' ≤ c ∧ c ≤ '9'))
    (hu : u ∈ w.state.shortenedUrls) (heq : u.shortcode = s) :
    ∃ w1, addFresh P inp w originalUrl vm (some s) = some (w1, .error msgShortcodeExists) ∧
      w1.state.shortenedUrls = w.state.shortenedUrls ∧
      w1.urlStore = w.urlStore ∧ w1.urlWrites = w.urlWrites := by
  have hs : s ≠ "" := by
    rintro rfl
    have h3 := hfmt.1
    simp at h3
  have hmem : s ∈ codes w.state.shortenedUrls := List.mem_map.mpr ⟨u, hu, heq⟩
  exact ⟨_, addShortenedUrl_taken P inp _ w originalUrl vm s hurl hs
    ((validateShortcode_spec s).mpr hfmt) hmem, by simp, by simp, by simp⟩

/-- An instance of C5: the custom code `abc` when the registry already holds it. -/
theorem C5_taken_custom_rejected_witness :
    ∃ w1, addFresh demoPlatform demoInput demoWorld "https://b.com" none (some "abc")
        = some (w1, .error msgShortcodeExists) ∧
      w1.state.shortenedUrls = demoWorld.state.shortenedUrls ∧
      w1.urlStore = demoWorld.urlStore ∧ w1.urlWrites = demoWorld.urlWrites :=
  C5_taken_custom_rejected demoPlatform demoInput demoWorld "https://b.com" none "abc"
    demoRecord (by decide) (by decide) (by decide) (by decide)

/-- Claim C6. For every registry and every `originalUrl` rejected by `validateUrl`,
`addShortenedUrl` throws the invalid-URL error whatever `validityMinutes` and
`customShortcode` are; `state.shortenedUrls` is unchanged and the stored URL collection
is not written. -/
theorem C6_invalid_url_rejected (P : Platform) (inp : AddInput) (snapshot : List UrlRecord)
    (w : World) (originalUrl : String) (vm : Option Int) (custom : Option String)
    (hurl : validateUrl P originalUrl = false) :
    ∃ w1, addShortenedUrl P inp snapshot w originalUrl vm custom
        = some (w1, .error msgInvalidUrl) ∧
      w1.state.shortenedUrls = w.state.shortenedUrls ∧
      w1.urlStore = w.urlStore ∧ w1.urlWrites = w.urlWrites :=
  ⟨_, addShortenedUrl_invalidUrl P inp snapshot w originalUrl vm custom hurl,
    by simp, by simp, by simp⟩

/-- An instance of C6: `create("not-a-url", 30, null)` on the empty registry. -/
theorem C6_invalid_url_rejected_witness :
    ∃ w1, addShortenedUrl demoPlatform demoInput [] emptyWorld "not-a-url" (some 30) none
        = some (w1, .error msgInvalidUrl) ∧
      w1.state.shortenedUrls = emptyWorld.state.shortenedUrls ∧
      w1.urlStore = emptyWorld.urlStore ∧ w1.urlWrites = emptyWorld.urlWrites :=
  C6_invalid_url_rejected demoPlatform demoInput [] emptyWorld "not-a-url" (some 30) none
    (by decide)

/-- Claim C7. For every call of `addShortenedUrl` that returns a record, the record has
`expiresAt = createdAt + validityMinutes * 60000` in integer milliseconds and its
`validityMinutes` field is the argument; when the argument is omitted the field is 30
and `expiresAt` is `createdAt` plus 30 minutes. -/
theorem C7_expiry_derived (P : Platform) (inp : AddInput) (snapshot : List UrlRecord)
    (w w1 : World) (originalUrl : String) (vm : Option Int) (custom : Option String)
    (r : UrlRecord)
    (h : addShortenedUrl P inp snapshot w originalUrl vm custom = some (w1, .ok r)) :
    r.expiresAt = r.createdAt + r.validityMinutes * 60000 ∧
    (∀ v, vm = some v → r.validityMinutes = v ∧ r.expiresAt = r.createdAt + v * 60000) ∧
    (vm = none → r.validityMinutes = 30 ∧ r.expiresAt = r.createdAt + 1800000) := by
  obtain ⟨_, ⟨code, hr, _⟩, _⟩ := addShortenedUrl_ok h
  subst hr
  refine ⟨rfl, ?_, ?_⟩
  · rintro v rfl; exact ⟨rfl, rfl⟩
  · rintro rfl; exact ⟨rfl, rfl⟩

/-- An instance of C7: a custom code with `validityMinutes` omitted. -/
theorem C7_expiry_derived_witness :
    ∃ w1 r, addShortenedUrl demoPlatform demoInput [] emptyWorld "https://a.com" none
        (some "abc") = some (w1, .ok r) ∧
      r.expiresAt = r.createdAt + r.validityMinutes * 60000 ∧
      (∀ v, (none : Option Int) = some v →
        r.validityMinutes = v ∧ r.expiresAt = r.createdAt + v * 60000) ∧
      ((none : Option Int) = none →
        r.validityMinutes = 30 ∧ r.expiresAt = r.createdAt + 1800000) :=
  ⟨_, _, addShortenedUrl_custom demoPlatform demoInput [] emptyWorld "https://a.com" none
      "abc" (by decide) (by decide) (by decide) (by decide),
    C7_expiry_derived demoPlatform demoInput [] emptyWorld _ "https://a.com" none
      (some "abc") _
      (addShortenedUrl_custom demoPlatform demoInput [] emptyWorld "https://a.com" none
        "abc" (by decide) (by decide) (by decide) (by decide))⟩

/-- Claim C8. For every call of `addShortenedUrl` that returns a record, the new
in-memory registry is the previous one followed by that record; the record has
`originalUrl` equal to the argument, no clicks, the custom code as shortcode when a
(non-empty) custom code was passed, `isCustom` true exactly when the shortcode is the
code passed by the caller, and `shortUrl` equal to the origin, a slash and the
shortcode. -/
theorem C8_created_record (P : Platform) (inp : AddInput) (snapshot : List UrlRecord)
    (w w1 : World) (originalUrl : String) (vm : Option Int) (custom : Option String)
    (r : UrlRecord)
    (h : addShortenedUrl P inp snapshot w originalUrl vm custom = some (w1, .ok r)) :
    w1.state.shortenedUrls = w.state.shortenedUrls ++ [r] ∧
    r.originalUrl = originalUrl ∧ r.clicks = [] ∧
    (∀ s, custom = some s → s ≠ "" → r.shortcode = s) ∧
    (r.isCustom = true ↔ custom = some r.shortcode) ∧
    (r.isCustom = false →
      generateShortcode snapshot inp.rand inp.fuel 0 = some r.shortcode) ∧
    r.shortUrl = P.origin ++ "/" ++ r.shortcode := by
  obtain ⟨_, ⟨code, hr, hcode⟩, hw⟩ := addShortenedUrl_ok h
  subst hr
  refine ⟨by rw [hw]; simp, rfl, rfl, ?_, ?_, ?_, rfl⟩
  · intro s hs hne
    rcases hcode with ⟨_, hc, _, _⟩ | ⟨ht, _⟩
    · rw [hs] at hc; injection hc with hc; exact hc.symm
    · simp [hs, truthy, hne] at ht
  · show truthy custom = true ↔ custom = some code
    rcases hcode with ⟨ht, hc, _, _⟩ | ⟨ht, hgen⟩
    · exact ⟨fun _ => hc, fun _ => ht⟩
    · rw [ht]
      refine ⟨fun hf => by simp at hf, fun hc => ?_⟩
      obtain ⟨⟨p, hp⟩, _⟩ := generateShortcode_some _ _ _ _ _ hgen
      have hlen := (candidate_wellFormed inp.rand p).1
      rw [← hp] at hlen
      have hne : code ≠ "" := by
        rintro rfl
        simp at hlen
      simp [hc, truthy, hne] at ht
  · intro hf
    have hf1 : truthy custom = false := hf
    rcases hcode with ⟨ht, _, _, _⟩ | ⟨_, hgen⟩
    · rw [ht] at hf1; simp at hf1
    · exact hgen

/-- An instance of C8: the custom code `abc` on the empty registry. -/
theorem C8_created_record_witness :
    ∃ w1 r, addShortenedUrl demoPlatform demoInput [] emptyWorld "https://a.com" (some 1)
        (some "abc") = some (w1, .ok r) ∧
      w1.state.shortenedUrls = emptyWorld.state.shortenedUrls ++ [r] ∧
      r.originalUrl = "https://a.com" ∧ r.clicks = [] ∧ r.shortcode = "abc" ∧
      r.isCustom = true ∧ r.shortUrl = "http://localhost:3000/abc" := by
  have h := addShortenedUrl_custom demoPlatform demoInput [] emptyWorld "https://a.com"
    (some 1) "abc" (by decide) (by decide) (by decide) (by decide)
  have hc := C8_created_record demoPlatform demoInput [] emptyWorld _ "https://a.com"
    (some 1) (some "abc") _ h
  exact ⟨_, _, h, hc.1, hc.2.1, hc.2.2.1, hc.2.2.2.1 "abc" rfl (by decide),
    hc.2.2.2.2.1.mpr rfl, by decide⟩

/-! ## The outcomes of `recordClick` -/

@[simp] theorem getLocationData_state (P : Platform) (w : World) (g : Option GeoReply) :
    (getLocationData P w g).1.state = w.state := by
  cases g <;> simp [getLocationData]

theorem find_none_of_absent (urls : List UrlRecord) (code : String)
    (h : ∀ u ∈ urls, u.shortcode ≠ code) :
    urls.find? (fun u => u.shortcode == code) = none := by
  rw [List.find?_eq_none]
  intro u hu
  simpa using h u hu

theorem recordClick_notFound (P : Platform) (inp : ClickInput) (snapshot : List UrlRecord)
    (w : World) (code : String) (h : ∀ u ∈ snapshot, u.shortcode ≠ code) :
    recordClick P inp snapshot w code =
      (log P w .ERROR "Failed to record click" (.error msgNotFound), .error msgNotFound) := by
  simp [recordClick, recordClickTry, find_none_of_absent snapshot code h]

theorem recordClick_expired (P : Platform) (inp : ClickInput) (snapshot : List UrlRecord)
    (w : World) (code : String) (r : UrlRecord)
    (hfind : snapshot.find? (fun u => u.shortcode == code) = some r)
    (hlate : r.expiresAt < inp.now) :
    recordClick P inp snapshot w code =
      (log P w .ERROR "Failed to record click" (.error msgExpired), .error msgExpired) := by
  simp [recordClick, recordClickTry, hfind, hlate]

theorem recordClick_live (P : Platform) (inp : ClickInput) (snapshot : List UrlRecord)
    (w : World) (code : String) (r : UrlRecord)
    (hfind : snapshot.find? (fun u => u.shortcode == code) = some r)
    (hlive : inp.now ≤ r.expiresAt) :
    recordClick P inp snapshot w code =
      (afterClick P inp snapshot w code, .ok r.originalUrl) := by
  have hnot : ¬ r.expiresAt < inp.now := not_lt.mpr hlive
  simp [recordClick, recordClickTry, hfind, hnot, afterClick, mkClick, appendClick]

theorem afterClick_urls (P : Platform) (inp : ClickInput) (snapshot : List UrlRecord)
    (w : World) (code : String) :
    (afterClick P inp snapshot w code).state.shortenedUrls =
      appendClick code (mkClick inp (getLocationData P w inp.geo).2)
        w.state.shortenedUrls := by
  simp [afterClick, appendClick, urlReducer]

theorem find_of_nodup (urls : List UrlRecord) (code : String) (r : UrlRecord)
    (hnodup : (codes urls).Nodup) (hr : r ∈ urls) (hcode : r.shortcode = code) :
    urls.find? (fun u => u.shortcode == code) = some r := by
  induction urls with
  | nil => simp at hr
  | cons u us ih =>
      simp only [codes, List.map_cons, List.nodup_cons, List.mem_map, not_exists,
        not_and] at hnodup
      rcases List.mem_cons.mp hr with rfl | hmem
      · simp [List.find?, hcode]
      · have hne : u.shortcode ≠ code := by
          intro he
          exact hnodup.1 r hmem (by rw [hcode, he])
        have hb : (u.shortcode == code) = false := by simpa using hne
        simp only [List.find?, hb]
        exact ih hnodup.2 hmem

theorem appendClick_of_nodup (urls : List UrlRecord) (code : String) (ev : ClickEvent)
    (r : UrlRecord) (hnodup : (codes urls).Nodup) (hr : r ∈ urls)
    (hcode : r.shortcode = code) :
    appendClick code ev urls =
      urls.map (fun u => if u = r then { r with clicks := r.clicks ++ [ev] } else u) := by
  unfold appendClick
  apply List.map_congr_left
  intro u hu
  have hinj := List.inj_on_of_nodup_map hnodup
  by_cases hc : u.shortcode = code
  · have : u = r := hinj hu hr (by rw [hc, hcode])
    simp [this, hcode]
  · have : u ≠ r := by rintro rfl; exact hc hcode
    simp [hc, this]

/-- Claim C9. For every registry, shortcode and current time, `recordClick` throws the
not-found error when no record has that shortcode and the expired error when the
matching record (the first one with that shortcode) has `expiresAt` strictly before the
current time; in both cases the reducer state, hence every record and its clicks, is
unchanged, no action is dispatched and the stored URL collection is not written. -/
theorem C9_recordClick_failures (P : Platform) (inp : ClickInput) (w : World)
    (code : String) :
    ((∀ u ∈ w.state.shortenedUrls, u.shortcode ≠ code) →
      ∃ w1, clickFresh P inp w code = (w1, .error msgNotFound) ∧
        w1.state = w.state ∧ w1.dispatched = w.dispatched ∧
        w1.urlStore = w.urlStore ∧ w1.urlWrites = w.urlWrites) ∧
    (∀ r, w.state.shortenedUrls.find? (fun u => u.shortcode == code) = some r →
      r.expiresAt < inp.now →
      ∃ w1, clickFresh P inp w code = (w1, .error msgExpired) ∧
        w1.state = w.state ∧ w1.dispatched = w.dispatched ∧
        w1.urlStore = w.urlStore ∧ w1.urlWrites = w.urlWrites) := by
  constructor
  · intro h
    exact ⟨_, recordClick_notFound P inp _ w code h, by simp, by simp, by simp, by simp⟩
  · intro r hfind hlate
    exact ⟨_, recordClick_expired P inp _ w code r hfind hlate,
      by simp, by simp, by simp, by simp⟩

/-- An instance of C9: on the registry holding `abc` (valid for one minute), a click on
the unknown code `zzz`, and a click on `abc` one millisecond after it expired. -/
theorem C9_recordClick_failures_witness :
    (∃ w1, clickFresh demoPlatform demoClick demoWorld "zzz" = (w1, .error msgNotFound) ∧
        w1.state = demoWorld.state ∧ w1.dispatched = demoWorld.dispatched ∧
        w1.urlStore = demoWorld.urlStore ∧ w1.urlWrites = demoWorld.urlWrites) ∧
    (∃ w1, clickFresh demoPlatform lateClick demoWorld "abc" = (w1, .error msgExpired) ∧
        w1.state = demoWorld.state ∧ w1.dispatched = demoWorld.dispatched ∧
        w1.urlStore = demoWorld.urlStore ∧ w1.urlWrites = demoWorld.urlWrites) :=
  ⟨(C9_recordClick_failures demoPlatform demoClick demoWorld "zzz").1 (by decide),
   (C9_recordClick_failures demoPlatform lateClick demoWorld "abc").2 demoRecord
     (by decide) (by decide)⟩

/-- Claim C10. For every registry with pairwise distinct shortcodes that contains a
record `r` with shortcode `code` and `now ≤ r.expiresAt`, `recordClick code` returns
`r.originalUrl`; afterwards the registry is the previous one with `r` replaced, in place,
by `r` with exactly one event appended to its clicks, every other record being
unchanged; the source of the event is the referrer, or `Direct` when the referrer is
empty.  In particular, creating `https://example.com` for 30 minutes without a custom
code and clicking its shortcode no later than the expiry, with no referrer, returns
`https://example.com` and leaves that record with one click whose source is `Direct`. -/
theorem C10_recordClick_success (P : Platform) (inp : ClickInput) :
    (∀ (w : World) (code : String) (r : UrlRecord),
      (codes w.state.shortenedUrls).Nodup → r ∈ w.state.shortenedUrls →
      r.shortcode = code → inp.now ≤ r.expiresAt →
      ∃ w1 ev, clickFresh P inp w code = (w1, .ok r.originalUrl) ∧
        ev.source = (if inp.referrer = "" then "Direct" else inp.referrer) ∧
        ev.timestamp = inp.clickClock ∧
        w1.state.shortenedUrls = w.state.shortenedUrls.map (fun u =>
          if u = r then { r with clicks := r.clicks ++ [ev] } else u) ∧
        { r with clicks := r.clicks ++ [ev] } ∈ w1.state.shortenedUrls ∧
        (r.clicks ++ [ev]).length = r.clicks.length + 1) ∧
    (∀ (w : World) (ainp : AddInput) (k : Nat),
      (codes w.state.shortenedUrls).Nodup →
      validateUrl P "https://example.com" = true →
      drawChars ainp.rand 6 (6 * k) "" ∉ codes w.state.shortenedUrls → k < ainp.fuel →
      inp.now ≤ ainp.now + 30 * 60000 → inp.referrer = "" →
      ∃ w1 created w2 clicked ev,
        addFresh P ainp w "https://example.com" (some 30) none = some (w1, .ok created) ∧
        clickFresh P inp w1 created.shortcode = (w2, .ok "https://example.com") ∧
        clicked ∈ w2.state.shortenedUrls ∧ clicked.shortcode = created.shortcode ∧
        clicked.clicks = [ev] ∧ clicked.clicks.length = 1 ∧ ev.source = "Direct") := by
  have general : ∀ (w : World) (code : String) (r : UrlRecord),
      (codes w.state.shortenedUrls).Nodup → r ∈ w.state.shortenedUrls →
      r.shortcode = code → inp.now ≤ r.expiresAt →
      ∃ w1 ev, clickFresh P inp w code = (w1, .ok r.originalUrl) ∧
        ev.source = (if inp.referrer = "" then "Direct" else inp.referrer) ∧
        ev.timestamp = inp.clickClock ∧
        w1.state.shortenedUrls = w.state.shortenedUrls.map (fun u =>
          if u = r then { r with clicks := r.clicks ++ [ev] } else u) ∧
        { r with clicks := r.clicks ++ [ev] } ∈ w1.state.shortenedUrls ∧
        (r.clicks ++ [ev]).length = r.clicks.length + 1 := by
    intro w code r hnodup hr hcode hlive
    have hfind := find_of_nodup _ code r hnodup hr hcode
    have hmap := appendClick_of_nodup w.state.shortenedUrls code
      (mkClick inp (getLocationData P w inp.geo).2) r hnodup hr hcode
    have hurls : (afterClick P inp w.state.shortenedUrls w code).state.shortenedUrls =
        w.state.shortenedUrls.map (fun u =>
          if u = r then
            { r with clicks := r.clicks ++ [mkClick inp (getLocationData P w inp.geo).2] }
          else u) := by
      rw [afterClick_urls, hmap]
    refine ⟨_, mkClick inp (getLocationData P w inp.geo).2,
      recordClick_live P inp _ w code r hfind hlive, ?_, rfl, hurls, ?_, by simp⟩
    · by_cases href : inp.referrer = "" <;> simp [mkClick, href]
    · rw [hurls]
      exact List.mem_map.mpr ⟨r, hr, by simp⟩
  refine ⟨general, ?_⟩
  intro w ainp k hnodup hurl hfree hfuel himm href
  obtain ⟨gen, hgen⟩ := generateShortcode_returns w.state.shortenedUrls ainp.rand k
    ainp.fuel 0 hfuel (by simpa using hfree)
  have hadd := addShortenedUrl_generated P ainp w.state.shortenedUrls w
    "https://example.com" (some 30) none gen hurl rfl hgen
  have hnodup1 := addFresh_nodup hnodup hadd
  obtain ⟨w2, ev, hclick, hsrc, _, _, hmem, _⟩ := general _ gen
    (mkNewUrl P ainp "https://example.com" 30 none gen) hnodup1
    (by simp) rfl himm
  refine ⟨_, _, w2, _, ev, hadd, hclick, hmem, rfl, rfl, rfl, ?_⟩
  rw [hsrc, href]; rfl

/-- An instance of C10: a click on `abc` in the registry that holds it, and, on the
empty registry, `create("https://example.com", 30, null)` followed at once by a click on
the returned shortcode. -/
theorem C10_recordClick_success_witness :
    (∃ w1 ev, clickFresh demoPlatform demoClick demoWorld "abc"
        = (w1, .ok demoRecord.originalUrl) ∧
      ev.source = (if demoClick.referrer = "" then "Direct" else demoClick.referrer) ∧
      ev.timestamp = demoClick.clickClock ∧
      w1.state.shortenedUrls = demoWorld.state.shortenedUrls.map (fun u =>
        if u = demoRecord then { demoRecord with clicks := demoRecord.clicks ++ [ev] }
        else u) ∧
      { demoRecord with clicks := demoRecord.clicks ++ [ev] } ∈ w1.state.shortenedUrls ∧
      (demoRecord.clicks ++ [ev]).length = demoRecord.clicks.length + 1) ∧
    (∃ w1 created w2 clicked ev,
      addFresh demoPlatform demoInput emptyWorld "https://example.com" (some 30) none
        = some (w1, .ok created) ∧
      clickFresh demoPlatform demoClick w1 created.shortcode
        = (w2, .ok "https://example.com") ∧
      clicked ∈ w2.state.shortenedUrls ∧ clicked.shortcode = created.shortcode ∧
      clicked.clicks = [ev] ∧ clicked.clicks.length = 1 ∧ ev.source = "Direct") :=
  ⟨(C10_recordClick_success demoPlatform demoClick).1 demoWorld "abc" demoRecord
      (by decide) (by decide) (by decide) (by decide),
   (C10_recordClick_success demoPlatform demoClick).2 emptyWorld demoInput 0
      (by decide) (by decide) (by decide) (by decide) (by decide) (by decide)⟩

/-! ## Listing by expiry: the claims -/

/-- Claim C11, evaluated at the boundary instant. With `now = expiresAt` the record
`demoRecord` is absent from `getValidUrls` and present in `getExpiredUrls`, whereas the
expiry test of `recordClick` (`now > expiresAt`) still treats it as active; one
millisecond earlier it is listed as valid. -/
theorem C11_boundary_record_listed_expired :
    demoRecord.expiresAt = demoExpiry ∧
    getValidUrls demoExpiry [demoRecord] = [] ∧
    getExpiredUrls demoExpiry [demoRecord] = [demoRecord] ∧
    isExpiredAt demoExpiry demoRecord = false ∧
    (∃ w1, clickFresh demoPlatform boundaryClick demoWorld "abc"
      = (w1, .ok "https://a.com")) ∧
    getValidUrls (demoExpiry - 1) [demoRecord] = [demoRecord] := by
  refine ⟨by decide, by decide, by decide, by decide, ?_, by decide⟩
  exact ⟨afterClick demoPlatform boundaryClick demoWorld.state.shortenedUrls demoWorld "abc",
    recordClick_live demoPlatform boundaryClick _ demoWorld "abc" demoRecord
      (by decide) (by decide)⟩

/-- Claim C12. For every registry and every current time `getExpiredUrls` is the
complement of `getValidUrls`: each record of the registry is in exactly one of the two
lists, both lists keep the registry order, the two lists together are a rearrangement
of the registry, and their lengths add up to the size of the registry. -/
theorem C12_expired_complement_of_valid (now : Int) (urls : List UrlRecord) :
    (∀ r ∈ urls, (r ∈ getValidUrls now urls ∧ r ∉ getExpiredUrls now urls) ∨
                 (r ∉ getValidUrls now urls ∧ r ∈ getExpiredUrls now urls)) ∧
    getExpiredUrls now urls = urls.filter (fun r => decide (r ∉ getValidUrls now urls)) ∧
    (getValidUrls now urls).Sublist urls ∧ (getExpiredUrls now urls).Sublist urls ∧
    (getValidUrls now urls ++ getExpiredUrls now urls).Perm urls ∧
    (getValidUrls now urls).length + (getExpiredUrls now urls).length = urls.length := by
  have hneg : (fun url : UrlRecord => decide (url.expiresAt ≤ now)) =
      (fun url => !(decide (url.expiresAt > now))) := by
    funext url
    by_cases h : url.expiresAt > now
    · have h2 : ¬ url.expiresAt ≤ now := not_le.mpr h
      simp [h, h2]
    · have h2 : url.expiresAt ≤ now := not_lt.mp h
      simp [h2]
  have hperm : (getValidUrls now urls ++ getExpiredUrls now urls).Perm urls := by
    unfold getValidUrls getExpiredUrls
    rw [hneg]
    exact List.filter_append_perm _ urls
  refine ⟨?_, ?_, List.filter_sublist _, List.filter_sublist _, hperm, ?_⟩
  · intro r hr
    by_cases h : r.expiresAt > now
    · left
      have h2 : ¬ r.expiresAt ≤ now := not_le.mpr h
      simp [getValidUrls, getExpiredUrls, List.mem_filter, hr, h, h2]
    · right
      have h2 : r.expiresAt ≤ now := not_lt.mp h
      simp [getValidUrls, getExpiredUrls, List.mem_filter, hr, h2]
  · unfold getExpiredUrls getValidUrls
    apply List.filter_congr
    intro r hr
    by_cases h : r.expiresAt > now
    · have h2 : ¬ r.expiresAt ≤ now := not_le.mpr h
      simp [List.mem_filter, hr, h, h2]
    · have h2 : r.expiresAt ≤ now := not_lt.mp h
      simp [List.mem_filter, hr, h2]
  · have := hperm.length_eq
    simpa using this

/-! ## Memory and storage after successful operations -/

@[simp] theorem getLocationData_urlStore (P : Platform) (w : World) (g : Option GeoReply) :
    (getLocationData P w g).1.urlStore = w.urlStore := by
  cases g <;> simp [getLocationData]

@[simp] theorem getLocationData_urlWrites (P : Platform) (w : World) (g : Option GeoReply) :
    (getLocationData P w g).1.urlWrites = w.urlWrites := by
  cases g <;> simp [getLocationData]

theorem save_urlStore_ok (P : Platform) (w : World) (urls : List UrlRecord)
    (hw : P.urlsWritable = true) : (saveUrlsToStorage P w urls).urlStore = .holds urls := by
  simp [saveUrlsToStorage, hw]

theorem save_urlStore_fail (P : Platform) (w : World) (urls : List UrlRecord)
    (hw : P.urlsWritable = false) : (saveUrlsToStorage P w urls).urlStore = w.urlStore := by
  simp [saveUrlsToStorage, hw]

theorem afterCreate_urlStore (P : Platform) (snapshot : List UrlRecord) (w : World)
    (r : UrlRecord) (hw : P.urlsWritable = true) :
    (afterCreate P snapshot w r).urlStore = .holds (snapshot ++ [r]) := by
  simp [afterCreate, save_urlStore_ok, hw]

theorem afterClick_urlStore (P : Platform) (inp : ClickInput) (snapshot : List UrlRecord)
    (w : World) (code : String) (hw : P.urlsWritable = true) :
    (afterClick P inp snapshot w code).urlStore =
      .holds (appendClick code (mkClick inp (getLocationData P w inp.geo).2) snapshot) := by
  simp [afterClick, save_urlStore_ok, hw]

/-- A returning `recordClick` found a record that is not expired and went through the
successful branch. -/
theorem recordClick_ok {P : Platform} {inp : ClickInput} {snapshot : List UrlRecord}
    {w w1 : World} {code originalUrl : String}
    (h : recordClick P inp snapshot w code = (w1, .ok originalUrl)) :
    (∃ r, snapshot.find? (fun u => u.shortcode == code) = some r ∧
        inp.now ≤ r.expiresAt ∧ originalUrl = r.originalUrl) ∧
      w1 = afterClick P inp snapshot w code := by
  cases hfind : snapshot.find? (fun u => u.shortcode == code) with
  | none =>
      have hall : ∀ u ∈ snapshot, u.shortcode ≠ code := by
        intro u hu
        have := List.find?_eq_none.mp hfind u hu
        simpa using this
      rw [recordClick_notFound P inp snapshot w code hall] at h
      simp at h
  | some r =>
      by_cases hlate : r.expiresAt < inp.now
      · rw [recordClick_expired P inp snapshot w code r hfind hlate] at h
        simp at h
      · have hlive : inp.now ≤ r.expiresAt := not_lt.mp hlate
        rw [recordClick_live P inp snapshot w code r hfind hlive] at h
        injection h with hw hr
        injection hr with hr
        exact ⟨⟨r, rfl, hlive, hr.symm⟩, hw.symm⟩

/-- After one successful operation whose write succeeds, the stored collection is the
in-memory collection. -/
theorem stepSuccessful_synced {w w1 : World} {op : Op} (hw : op.writable = true)
    (h : stepSuccessful w op = some w1) :
    w1.urlStore = .holds w1.state.shortenedUrls := by
  cases op with
  | add c =>
      simp only [stepSuccessful] at h
      split at h
      · rename_i w2 r hadd
        injection h with h
        subst h
        obtain ⟨_, _, hw2⟩ := addShortenedUrl_ok hadd
        rw [hw2]
        simp only [dispatch_urlStore, dispatch_state, reducer_loading_urls, afterCreate_urls]
        exact afterCreate_urlStore _ _ _ _ hw
      · simp at h
  | click P inp code =>
      simp only [stepSuccessful] at h
      split at h
      · rename_i w2 u hclick
        injection h with h
        subst h
        obtain ⟨_, hw2⟩ := recordClick_ok hclick
        rw [hw2, afterClick_urls]
        exact afterClick_urlStore _ _ _ _ _ hw
      · simp at h

theorem runSuccessful_synced (ops : List Op) :
    ∀ (w w1 : World), (∀ op ∈ ops, op.writable = true) →
      w.urlStore = .holds w.state.shortenedUrls →
      runSuccessful w ops = some w1 → w1.urlStore = .holds w1.state.shortenedUrls := by
  induction ops with
  | nil =>
      intro w w1 _ h0 h
      simp only [runSuccessful] at h
      injection h with h
      rw [← h]; exact h0
  | cons op ops ih =>
      intro w w1 hw _ h
      simp only [runSuccessful] at h
      split at h
      · simp at h
      · rename_i w2 hstep
        exact ih w2 w1 (fun o ho => hw o (List.mem_cons_of_mem _ ho))
          (stepSuccessful_synced (hw op (List.mem_cons_self _ _)) hstep) h

/-- Claim C13. For every non-empty sequence of successful `addShortenedUrl` and
`recordClick` operations, each run to completion on the registry left by the previous
one and with the storage writes succeeding, the collection stored under `shortenedUrls`
equals `state.shortenedUrls` when the last operation returns.  The statement ranges over
all such sequences, hence over the state after each operation of a longer one. -/
theorem C13_storage_equals_memory (ops : List Op) (w w1 : World) (hne : ops ≠ [])
    (hw : ∀ op ∈ ops, op.writable = true) (h : runSuccessful w ops = some w1) :
    w1.urlStore = .holds w1.state.shortenedUrls := by
  cases ops with
  | nil => exact absurd rfl hne
  | cons op ops =>
      simp only [runSuccessful] at h
      split at h
      · simp at h
      · rename_i w2 hstep
        exact runSuccessful_synced ops w2 w1 (fun o ho => hw o (List.mem_cons_of_mem _ ho))
          (stepSuccessful_synced (hw op (List.mem_cons_self _ _)) hstep) h

/-- An instance of C13: on the empty registry, creating `abc` and clicking it. -/
theorem C13_storage_equals_memory_witness :
    ∃ w1, runSuccessful emptyWorld demoOps = some w1 ∧
      w1.state.shortenedUrls.length = 1 ∧
      w1.urlStore = .holds w1.state.shortenedUrls :=
  ⟨(runSuccessful emptyWorld demoOps).get (by decide), by simp, by decide,
    C13_storage_equals_memory demoOps emptyWorld _ (by simp [demoOps]) (by decide) (by simp)⟩

/-! ## The log list -/

theorem sliceLast_eq_self {α : Type} (n : Nat) (xs : List α) (h : xs.length ≤ n) :
    sliceLast n xs = xs := by
  unfold sliceLast
  rw [Nat.sub_eq_zero_of_le h]; rfl

theorem log_logs (P : Platform) (w : World) (l : Level) (m : String) (d : LogData) :
    (log P w l m d).logs = sliceLast maxLogs (w.logs ++ [mkLogEntry P l m d]) := by
  have hk : (if (w.logs ++ [mkLogEntry P l m d]).length > maxLogs
      then sliceLast maxLogs (w.logs ++ [mkLogEntry P l m d])
      else w.logs ++ [mkLogEntry P l m d]) =
      sliceLast maxLogs (w.logs ++ [mkLogEntry P l m d]) := by
    split
    · rfl
    · rename_i h
      exact (sliceLast_eq_self _ _ (not_lt.mp h)).symm
  unfold log persistLogs
  simp only
  split
  · exact hk
  · exact hk

theorem sliceLast_snoc {α : Type} (n : Nat) (xs : List α) (a : α) :
    sliceLast (n + 1) (xs ++ [a]) = sliceLast n xs ++ [a] := by
  unfold sliceLast
  have h1 : (xs ++ [a]).length - (n + 1) = xs.length - n := by simp
  rw [h1, List.drop_append_of_le_length (Nat.sub_le _ _)]

@[simp] theorem dispatch_logs (w : World) (a : Action) : (dispatch w a).logs = w.logs := rfl

/-- An entry logged immediately before another call of `log` is still in the list. -/
theorem mem_logs_after_next (P : Platform) (w : World) (l1 l2 : Level) (m1 m2 : String)
    (d1 d2 : LogData) :
    mkLogEntry P l1 m1 d1 ∈ (log P (log P w l1 m1 d1) l2 m2 d2).logs := by
  rw [log_logs, log_logs]
  show mkLogEntry P l1 m1 d1 ∈
    sliceLast (999 + 1) (sliceLast (999 + 1) (w.logs ++ [mkLogEntry P l1 m1 d1]) ++ _)
  rw [sliceLast_snoc, sliceLast_snoc]
  show mkLogEntry P l1 m1 d1 ∈
    sliceLast (998 + 1) (sliceLast 999 w.logs ++ [mkLogEntry P l1 m1 d1]) ++ _
  rw [sliceLast_snoc]
  simp

/-- Claim C18. For every prior log list `L`, of any length, and every call
`log(level, message, data)`, the resulting list consists of the last
`min(|L| + 1, 1000)` entries of `L` followed by the new entry: it is a final segment of
that sequence (so the order of the retained entries is kept), its length is
`min(|L| + 1, 1000)`, hence at most 1000, and its last element is the new entry. -/
theorem C18_log_capped (P : Platform) (w : World) (level : Level) (message : String)
    (data : LogData) :
    (log P w level message data).logs =
      (w.logs ++ [mkLogEntry P level message data]).drop
        ((w.logs.length + 1) - min (w.logs.length + 1) 1000) ∧
    (log P w level message data).logs <:+ w.logs ++ [mkLogEntry P level message data] ∧
    (log P w level message data).logs.length = min (w.logs.length + 1) 1000 ∧
    (log P w level message data).logs.length ≤ 1000 ∧
    (log P w level message data).logs.getLast? = some (mkLogEntry P level message data) ∧
    (mkLogEntry P level message data).level = level ∧
    (mkLogEntry P level message data).message = message ∧
    (mkLogEntry P level message data).data = data := by
  have heq : (log P w level message data).logs =
      (w.logs ++ [mkLogEntry P level message data]).drop
        ((w.logs.length + 1) - min (w.logs.length + 1) 1000) := by
    have hidx : (w.logs ++ [mkLogEntry P level message data]).length - maxLogs =
        (w.logs.length + 1) - min (w.logs.length + 1) 1000 := by
      simp only [List.length_append, List.length_singleton, maxLogs]
      omega
    rw [log_logs]
    unfold sliceLast
    rw [hidx]
  have hlen : (log P w level message data).logs.length = min (w.logs.length + 1) 1000 := by
    rw [heq]
    simp only [List.length_drop, List.length_append, List.length_singleton]
    omega
  refine ⟨heq, ?_, hlen, by rw [hlen]; exact Nat.min_le_right _ _, ?_, rfl, rfl, rfl⟩
  · rw [heq]; exact List.drop_suffix _ _
  · rw [log_logs]
    show (sliceLast (999 + 1) (w.logs ++ [mkLogEntry P level message data])).getLast? = _
    rw [sliceLast_snoc]
    simp

/-! ## A failing storage write -/

theorem save_fail_eq (P : Platform) (w : World) (urls : List UrlRecord)
    (hw : P.urlsWritable = false) :
    saveUrlsToStorage P w urls =
      log P { w with urlWrites := w.urlWrites + 1 } .ERROR
        "Failed to save URLs to localStorage" (.error "setItem failed") := by
  simp [saveUrlsToStorage, hw]

theorem afterCreate_state (P : Platform) (snapshot : List UrlRecord) (w : World)
    (r : UrlRecord) : (afterCreate P snapshot w r).state = urlReducer w.state (.ADD_URL r) := by
  simp [afterCreate]

theorem afterClick_state (P : Platform) (inp : ClickInput) (snapshot : List UrlRecord)
    (w : World) (code : String) :
    (afterClick P inp snapshot w code).state =
      urlReducer w.state
        (.UPDATE_CLICKS code (mkClick inp (getLocationData P w inp.geo).2)) := by
  simp [afterClick]

theorem afterCreate_fail (P : Platform) (snapshot : List UrlRecord) (w : World)
    (r : UrlRecord) (hw : P.urlsWritable = false) :
    (afterCreate P snapshot w r).urlStore = w.urlStore ∧
      saveFailureEntry P ∈ (afterCreate P snapshot w r).logs := by
  constructor
  · simp [afterCreate, save_urlStore_fail, hw]
  · unfold afterCreate
    rw [save_fail_eq _ _ _ hw]
    exact mem_logs_after_next P _ _ _ _ _ _ _

theorem afterClick_fail (P : Platform) (inp : ClickInput) (snapshot : List UrlRecord)
    (w : World) (code : String) (hw : P.urlsWritable = false) :
    (afterClick P inp snapshot w code).urlStore = w.urlStore ∧
      saveFailureEntry P ∈ (afterClick P inp snapshot w code).logs := by
  constructor
  · simp [afterClick, save_urlStore_fail, hw]
  · unfold afterClick
    simp only
    rw [save_fail_eq _ _ _ hw]
    exact mem_logs_after_next P _ _ _ _ _ _ _

/-- The counterexample to C14 as stated: with a `setItem` that throws, creating `abc` on
the empty registry returns the record, and a click on `abc` returns the original URL;
no error reaches the caller, and the stored collection is left as it was. -/
theorem C14_write_failure_counterexample :
    failingPlatform.urlsWritable = false ∧
    (∃ w1 r, addShortenedUrl failingPlatform demoInput [] emptyWorld "https://a.com"
        (some 1) (some "abc") = some (w1, .ok r) ∧
      w1.state.shortenedUrls = [r] ∧ w1.urlStore = .absent ∧ w1.urlWrites = 1) ∧
    (∃ w2, recordClick failingPlatform demoClick demoWorld.state.shortenedUrls demoWorld
        "abc" = (w2, .ok "https://a.com") ∧
      w2.urlStore = .holds [demoRecord] ∧ w2.urlWrites = 1) := by
  refine ⟨rfl, ⟨_, _, addShortenedUrl_custom failingPlatform demoInput [] emptyWorld
      "https://a.com" (some 1) "abc" (by decide) (by decide) (by decide) (by decide),
      by decide, by decide, by decide⟩,
    ⟨_, recordClick_live failingPlatform demoClick _ demoWorld "abc" demoRecord
      (by decide) (by decide), by decide, by decide⟩⟩

/-- Claim C14, amended. When the storage write fails during `addShortenedUrl` or
`recordClick`, the failure is caught and logged by `saveUrlsToStorage` and is not
surfaced: the operation returns the same record, respectively the same original URL, as
with a succeeding write, the reducer state is updated in the same way, and the stored
collection keeps its previous content. -/
theorem C14_write_failure_absorbed (P : Platform) (hfail : P.urlsWritable = false) :
    (∀ (inp : AddInput) (snapshot : List UrlRecord) (w w1 : World) (originalUrl : String)
        (vm : Option Int) (custom : Option String) (r : UrlRecord),
      addShortenedUrl { P with urlsWritable := true } inp snapshot w originalUrl vm custom
          = some (w1, .ok r) →
      ∃ w2, addShortenedUrl P inp snapshot w originalUrl vm custom = some (w2, .ok r) ∧
        w2.state = w1.state ∧ w2.urlStore = w.urlStore ∧ saveFailureEntry P ∈ w2.logs) ∧
    (∀ (inp : ClickInput) (snapshot : List UrlRecord) (w w1 : World)
        (code originalUrl : String),
      recordClick { P with urlsWritable := true } inp snapshot w code
          = (w1, .ok originalUrl) →
      ∃ w2, recordClick P inp snapshot w code = (w2, .ok originalUrl) ∧
        w2.state = w1.state ∧ w2.urlStore = w.urlStore ∧ saveFailureEntry P ∈ w2.logs) := by
  constructor
  · intro inp snapshot w w1 originalUrl vm custom r h
    obtain ⟨hurl, ⟨code, hr, hcode⟩, hw1⟩ := addShortenedUrl_ok h
    have hurl1 : validateUrl P originalUrl = true := hurl
    have hr1 : r = mkNewUrl P inp originalUrl (vm.getD 30) custom code := hr
    obtain ⟨hstore, hlog⟩ :=
      afterCreate_fail P snapshot (dispatch w (.SET_LOADING true)) r hfail
    have hret : addShortenedUrl P inp snapshot w originalUrl vm custom =
        some (dispatch (afterCreate P snapshot (dispatch w (.SET_LOADING true)) r)
          (.SET_LOADING false), .ok r) := by
      rcases hcode with ⟨ht, hc, hfmt, hfree⟩ | ⟨ht, hgen⟩
      · obtain ⟨s, hs, hne, _⟩ := truthy_some ht
        have hsc : s = code := by rw [hs] at hc; injection hc
        subst hsc
        rw [hr1, hs]
        exact addShortenedUrl_custom P inp snapshot w originalUrl vm s hurl1 hne hfmt hfree
      · rw [hr1]
        exact addShortenedUrl_generated P inp snapshot w originalUrl vm custom code hurl1 ht hgen
    refine ⟨_, hret, ?_, ?_, ?_⟩
    · rw [hw1]
      simp only [dispatch_state, afterCreate_state]
    · simpa using hstore
    · simpa using hlog
  · intro inp snapshot w w1 code originalUrl h
    obtain ⟨⟨r, hfind, hlive, hu⟩, hw1⟩ := recordClick_ok h
    obtain ⟨hstore, hlog⟩ := afterClick_fail P inp snapshot w code hfail
    refine ⟨_, ?_, ?_, hstore, hlog⟩
    · rw [hu]; exact recordClick_live P inp snapshot w code r hfind hlive
    · rw [hw1]
      simp only [afterClick_state]
      cases inp.geo <;> rfl

/-- An instance of amended C14 on the platform whose writes fail: creating `abc` on the
empty registry and clicking `abc` in the registry that holds it. -/
theorem C14_write_failure_absorbed_witness :
    (∃ w2 r, addShortenedUrl failingPlatform demoInput [] emptyWorld "https://a.com"
        (some 1) (some "abc") = some (w2, .ok r) ∧
      w2.urlStore = emptyWorld.urlStore ∧ saveFailureEntry failingPlatform ∈ w2.logs) ∧
    (∃ w2, recordClick failingPlatform demoClick demoWorld.state.shortenedUrls demoWorld
        "abc" = (w2, .ok "https://a.com") ∧
      w2.urlStore = demoWorld.urlStore ∧ saveFailureEntry failingPlatform ∈ w2.logs) := by
  have hc := C14_write_failure_absorbed failingPlatform rfl
  obtain ⟨w2, h1, _, h3, h4⟩ := hc.1 demoInput [] emptyWorld _ "https://a.com" (some 1)
    (some "abc") _
    (addShortenedUrl_custom { failingPlatform with urlsWritable := true } demoInput []
      emptyWorld "https://a.com" (some 1) "abc" (by decide) (by decide) (by decide)
      (by decide))
  obtain ⟨w3, k1, _, k3, k4⟩ := hc.2 demoClick demoWorld.state.shortenedUrls demoWorld _
    "abc" "https://a.com"
    (recordClick_live { failingPlatform with urlsWritable := true } demoClick _ demoWorld
      "abc" demoRecord (by decide) (by decide))
  exact ⟨⟨w2, _, h1, h3, h4⟩, ⟨w3, k1, k3, k4⟩⟩

/-! ## Loading and the round trip -/

theorem loadUrlsFromStorage_absent (P : Platform) (w : World) (h : w.urlStore = .absent) :
    loadUrlsFromStorage P w = (w, .ok ()) := by
  simp [loadUrlsFromStorage, loadUrlsFromStorageTry, h]

theorem loadUrlsFromStorage_holds (P : Platform) (w : World) (urls : List UrlRecord)
    (h : w.urlStore = .holds urls) :
    loadUrlsFromStorage P w =
      (log P (dispatch w (.LOAD_URLS urls)) .INFO "URLs loaded from localStorage"
        (.count urls.length), .ok ()) := by
  simp [loadUrlsFromStorage, loadUrlsFromStorageTry, h]

theorem loadUrlsFromStorage_malformed (P : Platform) (w : World) (text : String)
    (h : w.urlStore = .malformed text) :
    (loadUrlsFromStorage P w).2 = .ok () ∧
      (loadUrlsFromStorage P w).1.state.shortenedUrls = w.state.shortenedUrls := by
  by_cases ht : text = ""
  · simp [loadUrlsFromStorage, loadUrlsFromStorageTry, h, ht]
  · simp [loadUrlsFromStorage, loadUrlsFromStorageTry, h, ht]

/-- Claim C15. Starting from the initial state, `loadUrlsFromStorage` never raises to its
caller; when the `shortenedUrls` key is absent or its content fails to deserialize the
collection of the registry is empty afterwards, and when the content deserializes the
collection of the registry is exactly the deserialized collection. -/
theorem C15_load_from_storage (P : Platform) (w : World) (h0 : w.state = initialState) :
    (loadUrlsFromStorage P w).2 = .ok () ∧
    (w.urlStore = .absent → (loadUrlsFromStorage P w).1.state.shortenedUrls = []) ∧
    (∀ text, w.urlStore = .malformed text →
      (loadUrlsFromStorage P w).1.state.shortenedUrls = []) ∧
    (∀ urls, w.urlStore = .holds urls →
      (loadUrlsFromStorage P w).1.state.shortenedUrls = urls) := by
  have hinit : w.state.shortenedUrls = [] := by rw [h0]; rfl
  refine ⟨?_, ?_, ?_, ?_⟩
  · cases hs : w.urlStore with
    | absent => rw [loadUrlsFromStorage_absent P w hs]
    | malformed text => exact (loadUrlsFromStorage_malformed P w text hs).1
    | holds urls => rw [loadUrlsFromStorage_holds P w urls hs]
  · intro hs
    rw [loadUrlsFromStorage_absent P w hs]; exact hinit
  · intro text hs
    rw [(loadUrlsFromStorage_malformed P w text hs).2]; exact hinit
  · intro urls hs
    rw [loadUrlsFromStorage_holds P w urls hs]
    simp [urlReducer]

/-- An instance of C15: start-up with a stored collection, with a corrupt text and with
nothing stored. -/
theorem C15_load_from_storage_witness :
    (loadUrlsFromStorage demoPlatform storedWorld).2 = .ok () ∧
    (loadUrlsFromStorage demoPlatform storedWorld).1.state.shortenedUrls = [demoRecord] ∧
    (loadUrlsFromStorage demoPlatform corruptWorld).2 = .ok () ∧
    (loadUrlsFromStorage demoPlatform corruptWorld).1.state.shortenedUrls = [] ∧
    (loadUrlsFromStorage demoPlatform emptyWorld).1.state.shortenedUrls = [] :=
  ⟨(C15_load_from_storage demoPlatform storedWorld rfl).1,
   (C15_load_from_storage demoPlatform storedWorld rfl).2.2.2 [demoRecord] rfl,
   (C15_load_from_storage demoPlatform corruptWorld rfl).1,
   (C15_load_from_storage demoPlatform corruptWorld rfl).2.2.1 "[oops" rfl,
   (C15_load_from_storage demoPlatform emptyWorld rfl).2.1 rfl⟩

/-- The counterexample to C16 as stated: with a `setItem` that throws,
`saveUrlsToStorage([demoRecord])` returns normally but stores nothing, and the
following `loadUrlsFromStorage` yields the empty collection. -/
theorem C16_round_trip_counterexample :
    failingPlatform.urlsWritable = false ∧
    (saveUrlsToStorage failingPlatform emptyWorld [demoRecord]).urlStore = .absent ∧
    (loadUrlsFromStorage failingPlatform
      (saveUrlsToStorage failingPlatform emptyWorld [demoRecord])).1.state.shortenedUrls
        = [] ∧
    ([] : List UrlRecord) ≠ [demoRecord] := by
  refine ⟨rfl, by decide, by decide, by decide⟩

/-- Claim C16, amended. For every collection `x` of records, the empty one included,
when the storage write succeeds, `saveUrlsToStorage x` followed by
`loadUrlsFromStorage` (in the same session or, the stored content being kept, in a later
one) yields a registry collection equal to `x`, and the load does not raise. -/
theorem C16_round_trip (P1 P2 : Platform) (w w2 : World) (x : List UrlRecord)
    (hw : P1.urlsWritable = true)
    (hkept : w2.urlStore = (saveUrlsToStorage P1 w x).urlStore) :
    (loadUrlsFromStorage P2 (saveUrlsToStorage P1 w x)).1.state.shortenedUrls = x ∧
    (loadUrlsFromStorage P2 w2).1.state.shortenedUrls = x ∧
    (loadUrlsFromStorage P2 w2).2 = .ok () := by
  have hs : (saveUrlsToStorage P1 w x).urlStore = .holds x := save_urlStore_ok P1 w x hw
  refine ⟨?_, ?_, ?_⟩
  · rw [loadUrlsFromStorage_holds P2 _ x hs]; simp [urlReducer]
  · rw [loadUrlsFromStorage_holds P2 w2 x (hkept.trans hs)]; simp [urlReducer]
  · rw [loadUrlsFromStorage_holds P2 w2 x (hkept.trans hs)]

/-- An instance of amended C16: the empty collection saved over a stored record, then
loaded at the next start-up. -/
theorem C16_round_trip_witness :
    (loadUrlsFromStorage demoPlatform
      (saveUrlsToStorage demoPlatform demoWorld [])).1.state.shortenedUrls = [] ∧
    (loadUrlsFromStorage demoPlatform
      { emptyWorld with urlStore := .holds [] }).1.state.shortenedUrls = [] ∧
    (loadUrlsFromStorage demoPlatform { emptyWorld with urlStore := .holds [] }).2
      = .ok () :=
  C16_round_trip demoPlatform demoPlatform demoWorld { emptyWorld with urlStore := .holds [] }
    [] rfl rfl

/-! ## Record identifiers -/

/-- The identifier of a created record is the decimal rendering of `Date.now()`. -/
theorem addShortenedUrl_id {P : Platform} {inp : AddInput} {snapshot : List UrlRecord}
    {w w1 : World} {originalUrl : String} {vm : Option Int} {custom : Option String}
    {r : UrlRecord}
    (h : addShortenedUrl P inp snapshot w originalUrl vm custom = some (w1, .ok r)) :
    r.id = toString inp.idNow := by
  obtain ⟨_, ⟨code, hr, _⟩, _⟩ := addShortenedUrl_ok h
  rw [hr]; rfl

/-- Claim C17, evaluated on two calls within the same millisecond. Both calls succeed,
the registry holds the two records with distinct shortcodes, and the two records carry
the same `id`; the ids of the registry are not pairwise distinct. -/
theorem C17_same_millisecond_same_id :
    ∃ w1 r1 r2, runAdds emptyWorld sameMsCalls = some w1 ∧
      w1.state.shortenedUrls = [r1, r2] ∧ r1.shortcode = "abc" ∧ r2.shortcode = "xyz" ∧
      r1.id = r2.id ∧ ¬ (w1.state.shortenedUrls.map (fun u => u.id)).Nodup := by
  refine ⟨(runAdds emptyWorld sameMsCalls).get (by decide),
    mkNewUrl demoPlatform demoInput "https://a.com" 30 (some "abc") "abc",
    mkNewUrl demoPlatform demoInput "https://b.com" 30 (some "xyz") "xyz",
    by simp, by decide, rfl, rfl, rfl, ?_⟩
  have h : ((runAdds emptyWorld sameMsCalls).get (by decide)).state.shortenedUrls =
      [mkNewUrl demoPlatform demoInput "https://a.com" 30 (some "abc") "abc",
       mkNewUrl demoPlatform demoInput "https://b.com" 30 (some "xyz") "xyz"] := by decide
  rw [h]
  simp [mkNewUrl]

/-! ## The reducer keeps records and only appends clicks -/

theorem clicked_ne (u : UrlRecord) (ev : ClickEvent) :
    ({ u with clicks := u.clicks ++ [ev] } : UrlRecord) ≠ u := by
  intro h
  have hc : u.clicks ++ [ev] = u.clicks := congrArg UrlRecord.clicks h
  have hl := congrArg List.length hc
  simp at hl

/-- Claim C19. For every reducer action other than `LOAD_URLS`, every record present
before the action is present afterwards at the same position, with its previous clicks
as an initial segment of its new clicks and all other fields identical.  The action
`UPDATE_CLICKS` for shortcode `c` keeps the length of the collection, appends the click
to exactly the records whose shortcode is `c` and leaves every other record as it is;
when the shortcodes are pairwise distinct and `c` occurs, exactly one record has
shortcode `c`; when `c` does not occur the collection is unchanged. -/
theorem C19_reducer_frame (s : State) (a : Action) :
    ((∀ p, a ≠ .LOAD_URLS p) →
      ∀ (i : Nat) (u : UrlRecord), s.shortenedUrls[i]? = some u →
        ∃ v, (urlReducer s a).shortenedUrls[i]? = some v ∧
          (∃ added, v.clicks = u.clicks ++ added) ∧
          v.id = u.id ∧ v.originalUrl = u.originalUrl ∧ v.shortcode = u.shortcode ∧
          v.shortUrl = u.shortUrl ∧ v.createdAt = u.createdAt ∧
          v.expiresAt = u.expiresAt ∧ v.validityMinutes = u.validityMinutes ∧
          v.isCustom = u.isCustom) ∧
    (∀ (c : String) (ev : ClickEvent), a = .UPDATE_CLICKS c ev →
      (urlReducer s a).shortenedUrls.length = s.shortenedUrls.length ∧
      (∀ (i : Nat) (u : UrlRecord), s.shortenedUrls[i]? = some u →
        (urlReducer s a).shortenedUrls[i]? =
          some (if u.shortcode = c then { u with clicks := u.clicks ++ [ev] } else u)) ∧
      (∀ u : UrlRecord, ({ u with clicks := u.clicks ++ [ev] } : UrlRecord) ≠ u) ∧
      ((codes s.shortenedUrls).Nodup → c ∈ codes s.shortenedUrls →
        (s.shortenedUrls.filter (fun u => decide (u.shortcode = c))).length = 1) ∧
      (c ∉ codes s.shortenedUrls → (urlReducer s a).shortenedUrls = s.shortenedUrls)) := by
  have same : ∀ u : UrlRecord, ∃ v, some u = some v ∧
      (∃ added, v.clicks = u.clicks ++ added) ∧
      v.id = u.id ∧ v.originalUrl = u.originalUrl ∧ v.shortcode = u.shortcode ∧
      v.shortUrl = u.shortUrl ∧ v.createdAt = u.createdAt ∧
      v.expiresAt = u.expiresAt ∧ v.validityMinutes = u.validityMinutes ∧
      v.isCustom = u.isCustom :=
    fun u => ⟨u, rfl, ⟨[], by simp⟩, rfl, rfl, rfl, rfl, rfl, rfl, rfl, rfl⟩
  constructor
  · intro hnot i u hu
    cases a with
    | LOAD_URLS p => exact absurd rfl (hnot p)
    | ADD_URL r =>
        have hlt : i < s.shortenedUrls.length := (List.getElem?_eq_some.mp hu).1
        have : (urlReducer s (.ADD_URL r)).shortenedUrls[i]? = some u := by
          show (s.shortenedUrls ++ [r])[i]? = some u
          rw [List.getElem?_append_left hlt]; exact hu
        rw [this]; exact same u
    | UPDATE_CLICKS c ev =>
        have : (urlReducer s (.UPDATE_CLICKS c ev)).shortenedUrls[i]? =
            some (if u.shortcode = c then { u with clicks := u.clicks ++ [ev] } else u) := by
          show (s.shortenedUrls.map _)[i]? = _
          rw [List.getElem?_map, hu]; rfl
        rw [this]
        by_cases hc : u.shortcode = c
        · rw [if_pos hc]
          exact ⟨_, rfl, ⟨[ev], rfl⟩, rfl, rfl, rfl, rfl, rfl, rfl, rfl, rfl⟩
        · rw [if_neg hc]; exact same u
    | SET_LOADING b => show ∃ v, s.shortenedUrls[i]? = some v ∧ _; rw [hu]; exact same u
    | SET_ERROR m => show ∃ v, s.shortenedUrls[i]? = some v ∧ _; rw [hu]; exact same u
    | CLEAR_ERROR => show ∃ v, s.shortenedUrls[i]? = some v ∧ _; rw [hu]; exact same u
    | other => show ∃ v, s.shortenedUrls[i]? = some v ∧ _; rw [hu]; exact same u
  · intro c ev ha
    subst ha
    refine ⟨?_, ?_, fun u => clicked_ne u ev, ?_, ?_⟩
    · show (s.shortenedUrls.map _).length = _
      rw [List.length_map]
    · intro i u hu
      show (s.shortenedUrls.map _)[i]? = _
      rw [List.getElem?_map, hu]; rfl
    · intro hnodup hmem
      have hcount := List.count_eq_one_of_mem hnodup hmem
      rw [← hcount, ← List.countP_eq_length_filter]
      unfold codes List.count
      rw [List.countP_map]
      apply List.countP_congr
      intro u _
      simp only [Function.comp, beq_iff_eq, decide_eq_true_eq]
    · intro habs
      show s.shortenedUrls.map _ = s.shortenedUrls
      conv_rhs => rw [← List.map_id s.shortenedUrls]
      apply List.map_congr_left
      intro u hu
      have : u.shortcode ≠ c := fun h => habs (List.mem_map.mpr ⟨u, hu, h⟩)
      simp [this]

/-- An instance of C19: a click on `abc` in the registry that holds only `abc`. -/
theorem C19_reducer_frame_witness :
    (∃ v, (urlReducer demoWorld.state (.UPDATE_CLICKS "abc" demoEvent)).shortenedUrls[0]?
        = some v ∧ v.clicks = demoRecord.clicks ++ [demoEvent] ∧ v.id = demoRecord.id ∧
      v.shortcode = demoRecord.shortcode ∧ v.expiresAt = demoRecord.expiresAt) ∧
    (urlReducer demoWorld.state (.UPDATE_CLICKS "abc" demoEvent)).shortenedUrls.length = 1 ∧
    (demoWorld.state.shortenedUrls.filter (fun u => decide (u.shortcode = "abc"))).length
      = 1 ∧
    (urlReducer demoWorld.state (.UPDATE_CLICKS "zzz" demoEvent)).shortenedUrls
      = demoWorld.state.shortenedUrls := by
  have h1 := (C19_reducer_frame demoWorld.state (.UPDATE_CLICKS "abc" demoEvent)).1
    (fun p hp => by cases hp) 0 demoRecord rfl
  have h2 := (C19_reducer_frame demoWorld.state (.UPDATE_CLICKS "abc" demoEvent)).2
    "abc" demoEvent rfl
  have h3 := (C19_reducer_frame demoWorld.state (.UPDATE_CLICKS "zzz" demoEvent)).2
    "zzz" demoEvent rfl
  obtain ⟨v, hv, _, hid, _, hsc, _, _, hex, _, _⟩ := h1
  have hv2 := h2.2.1 0 demoRecord rfl
  refine ⟨⟨v, hv, ?_, hid, hsc, hex⟩, h2.1, h2.2.2.2.1 (by decide) (by decide),
    h3.2.2.2.2 (by decide)⟩
  rw [hv] at hv2
  injection hv2 with hv2
  rw [hv2]; rfl

/-! ## Submitting the form -/

/-- Claim C20, evaluated on a submission of two entries on the empty registry. Both
entries pass `validateForm` and both calls of `addShortenedUrl` succeed; afterwards the
in-memory registry holds the two new records, while the collection stored under
`shortenedUrls` holds only the second one: each call wrote the snapshot followed by its
own record. -/
theorem C20_submission_stores_last_record_only :
    validateForm demoPlatform demoForm = true ∧
    ∃ w1 r1 r2,
      handleSubmit demoPlatform (fun _ => demoInput) emptyWorld.state.shortenedUrls
        emptyWorld demoForm = some (w1, [r1, r2]) ∧
      w1.state.shortenedUrls = [r1, r2] ∧
      w1.urlStore = .holds [r2] ∧
      w1.urlStore ≠ .holds w1.state.shortenedUrls ∧ w1.urlWrites = 2 := by
  refine ⟨by decide,
    (handleSubmit demoPlatform (fun _ => demoInput) [] emptyWorld demoForm).get (by decide)
      |>.1,
    mkNewUrl demoPlatform demoInput "https://a.com" 30 (some "abc") "abc",
    mkNewUrl demoPlatform demoInput "https://b.com" 30 (some "xyz") "xyz",
    by decide, by decide, by decide, by decide, by decide⟩

/-! ## What a submission leaves in memory and in storage -/

/-- The loop of `handleSubmit` appends the returned records to the in-memory registry,
and, when the writes succeed, leaves in storage the snapshot followed by the last
returned record only. -/
theorem submitLoop_effect (P : Platform) (inputs : Nat → AddInput)
    (snapshot : List UrlRecord) (hw : P.urlsWritable = true) (urls : List FormEntry) :
    ∀ (w w1 : World) (i : Nat) (acc res : List UrlRecord),
      submitLoop P inputs snapshot w urls i acc = some (w1, res) →
      ∃ added, res = acc ++ added ∧
        w1.state.shortenedUrls = w.state.shortenedUrls ++ added ∧
        (added = [] → w1.urlStore = w.urlStore) ∧
        (∀ last, added.getLast? = some last → w1.urlStore = .holds (snapshot ++ [last])) := by
  induction urls with
  | nil =>
      intro w w1 i acc res h
      simp only [submitLoop] at h
      injection h with h
      injection h with h1 h2
      subst h1; subst h2
      exact ⟨[], by simp, by simp, fun _ => rfl, fun last hl => by simp at hl⟩
  | cons url rest ih =>
      intro w w1 i acc res h
      simp only [submitLoop] at h
      split at h
      · simp at h
      · rename_i w2 r hadd
        obtain ⟨_, _, hw2⟩ := addShortenedUrl_ok hadd
        obtain ⟨added, hres, hst, hnil, hlast⟩ := ih w2 w1 (i + 1) (acc ++ [r]) res h
        have hst2 : w2.state.shortenedUrls = w.state.shortenedUrls ++ [r] := by
          rw [hw2]; simp
        have hstore2 : w2.urlStore = .holds (snapshot ++ [r]) := by
          rw [hw2]
          simp only [dispatch_urlStore]
          exact afterCreate_urlStore _ _ _ _ hw
        refine ⟨r :: added, by rw [hres]; simp, by rw [hst, hst2]; simp, by simp, ?_⟩
        intro last hl
        cases added with
        | nil =>
            simp at hl
            rw [hnil rfl, hstore2, hl]
        | cons a as =>
            apply hlast
            rw [List.getLast?_cons_cons] at hl
            exact hl
      · rename_i w2 m hadd
        have hw2 := addShortenedUrl_error hadd
        obtain ⟨added, hres, hst, hnil, hlast⟩ := ih _ w1 (i + 1) acc res h
        refine ⟨added, hres, ?_, ?_, hlast⟩
        · rw [hst, log_state, hw2]; simp
        · intro hn
          rw [hnil hn, log_urlStore, hw2]; simp

/-- For every submission that passes `validateForm`, runs with succeeding writes on the
snapshot `R` of the current registry and in which at least two calls of
`addShortenedUrl` return a record, the in-memory registry is `R` followed by all the new
records while the stored collection is `R` followed by the last one only. -/
theorem handleSubmit_store_diverges (P : Platform) (inputs : Nat → AddInput) (w w1 : World)
    (urls : List FormEntry) (res : List UrlRecord) (hw : P.urlsWritable = true)
    (h : handleSubmit P inputs w.state.shortenedUrls w urls = some (w1, res))
    (htwo : 2 ≤ res.length) :
    w1.state.shortenedUrls = w.state.shortenedUrls ++ res ∧
    (∃ last, res.getLast? = some last ∧
      w1.urlStore = .holds (w.state.shortenedUrls ++ [last])) ∧
    w1.urlStore ≠ .holds w1.state.shortenedUrls := by
  unfold handleSubmit at h
  simp only at h
  split at h
  · injection h with h
    injection h with _ h2
    rw [← h2] at htwo
    simp at htwo
  · split at h
    · simp at h
    · rename_i w2 newResults hloop
      obtain ⟨added, hres, hst, _, hlast⟩ :=
        submitLoop_effect P inputs _ hw urls _ _ _ _ _ hloop
      simp only [List.nil_append] at hres
      have hwr : w1.state = w2.state ∧ w1.urlStore = w2.urlStore ∧ res = added := by
        split at h
        · injection h with h
          injection h with h1 h2
          rw [← h1]
          exact ⟨by simp, by simp, by rw [← h2, hres]⟩
        · injection h with h
          injection h with h1 h2
          rw [← h1]
          exact ⟨rfl, rfl, by rw [← h2, hres]⟩
      obtain ⟨hs1, hs2, hr⟩ := hwr
      have hmem : w1.state.shortenedUrls = w.state.shortenedUrls ++ res := by
        rw [hs1, hst, hr]; rfl
      obtain ⟨last, hl⟩ : ∃ last, res.getLast? = some last := by
        cases hg : res.getLast? with
        | none =>
            rw [List.getLast?_eq_none_iff] at hg
            rw [hg] at htwo
            simp at htwo
        | some last => exact ⟨last, rfl⟩
      have hstore : w1.urlStore = .holds (w.state.shortenedUrls ++ [last]) := by
        rw [hs2]; exact hlast last (by rw [← hr]; exact hl)
      refine ⟨hmem, ⟨last, hl, hstore⟩, ?_⟩
      rw [hstore, hmem]
      intro heq
      injection heq with heq
      have hlen := congrArg List.length heq
      simp only [List.length_append, List.length_singleton] at hlen
      omega

/-! ## Membership in the two listings -/

/-- A record is listed by `getValidUrls` exactly when it is in the registry and the
current time is strictly before its `expiresAt`. -/
theorem mem_getValidUrls (now : Int) (urls : List UrlRecord) (r : UrlRecord) :
    r ∈ getValidUrls now urls ↔ r ∈ urls ∧ now < r.expiresAt := by
  simp [getValidUrls, List.mem_filter]

/-- A record is listed by `getExpiredUrls` exactly when it is in the registry and the
current time is at or after its `expiresAt`. -/
theorem mem_getExpiredUrls (now : Int) (urls : List UrlRecord) (r : UrlRecord) :
    r ∈ getExpiredUrls now urls ↔ r ∈ urls ∧ r.expiresAt ≤ now := by
  simp [getExpiredUrls, List.mem_filter]

/-! ## Shortcodes after a submission -/

/-- The uniqueness test of `addShortenedUrl` looks at the snapshot of its closure only:
a well-formed custom code that is absent from the snapshot is accepted even when the
live registry already holds it, and the registry then holds that code twice. -/
theorem stale_snapshot_admits_duplicate (P : Platform) (inp : AddInput)
    (snapshot : List UrlRecord) (w : World) (originalUrl : String) (vm : Option Int)
    (s : String) (hurl : validateUrl P originalUrl = true) (hs : s ≠ "")
    (hfmt : validateShortcode s = true) (hstale : s ∉ codes snapshot)
    (hlive : s ∈ codes w.state.shortenedUrls) :
    ∃ w1 r, addShortenedUrl P inp snapshot w originalUrl vm (some s) = some (w1, .ok r) ∧
      r.shortcode = s ∧ w1.state.shortenedUrls = w.state.shortenedUrls ++ [r] ∧
      ¬ (codes w1.state.shortenedUrls).Nodup := by
  refine ⟨_, _, addShortenedUrl_custom P inp snapshot w originalUrl vm s hurl hs hfmt hstale,
    rfl, by simp, ?_⟩
  simp only [dispatch_state, reducer_loading_urls, afterCreate_urls, codes_append]
  intro hnodup
  have hdisj := (List.nodup_append.mp hnodup).2.2
  exact hdisj hlive (List.mem_singleton.mpr rfl)

/-- Claim C21, evaluated on a submission of two entries that carry the same custom
shortcode, on the empty registry. Both entries pass `validateForm`, both calls of
`addShortenedUrl` return a record with shortcode `abc`, and the in-memory registry holds
`abc` twice: its shortcodes are not pairwise distinct.  The same two requests, each made
on the registry left by the previous one, leave a single record. -/
theorem C21_submission_admits_duplicate_shortcode :
    validateForm demoPlatform dupForm = true ∧
    (∃ w1 r1 r2,
      handleSubmit demoPlatform (fun _ => demoInput) emptyWorld.state.shortenedUrls
        emptyWorld dupForm = some (w1, [r1, r2]) ∧
      w1.state.shortenedUrls = [r1, r2] ∧
      r1.shortcode = "abc" ∧ r2.shortcode = "abc" ∧
      r1.originalUrl = "https://a.com" ∧ r2.originalUrl = "https://b.com" ∧
      codes w1.state.shortenedUrls = ["abc", "abc"] ∧
      ¬ (codes w1.state.shortenedUrls).Nodup) ∧
    (∃ w2, runAdds emptyWorld dupCalls = some w2 ∧
      codes w2.state.shortenedUrls = ["abc"] ∧
      w2.state.error = some msgShortcodeExists) := by
  refine ⟨by decide,
    ⟨(handleSubmit demoPlatform (fun _ => demoInput) [] emptyWorld dupForm).get (by decide)
      |>.1,
    mkNewUrl demoPlatform demoInput "https://a.com" 30 (some "abc") "abc",
    mkNewUrl demoPlatform demoInput "https://b.com" 30 (some "abc") "abc",
    by decide, by decide, rfl, rfl, rfl, rfl, by decide, by decide⟩,
    ⟨(runAdds emptyWorld dupCalls).get (by decide), by simp, by decide, by decide⟩⟩

/-- Two entries without custom code whose calls meet the same outcomes of
`Math.random` receive the same generated code: `generateShortcode` compares its
candidates with the snapshot, not with the record created by the earlier call. -/
theorem submission_repeats_generated_code :
    validateForm demoPlatform plainForm = true ∧
    ∃ w1 r1 r2,
      handleSubmit demoPlatform (fun _ => demoInput) emptyWorld.state.shortenedUrls
        emptyWorld plainForm = some (w1, [r1, r2]) ∧
      w1.state.shortenedUrls = [r1, r2] ∧ r1.shortcode = r2.shortcode ∧
      r1.isCustom = false ∧ r2.isCustom = false := by
  refine ⟨by decide,
    (handleSubmit demoPlatform (fun _ => demoInput) [] emptyWorld plainForm).get (by decide)
      |>.1,
    mkNewUrl demoPlatform demoInput "https://a.com" 30 none (drawChars demoRand 6 0 ""),
    mkNewUrl demoPlatform demoInput "https://b.com" 30 none (drawChars demoRand 6 0 ""),
    by decide, by decide, rfl, rfl, rfl⟩

end UrlShortener
